import Mathlib

set_option linter.unusedSectionVars false

/-!
Verification of the Barnes-Hut quadtree core of the gravitas repository.

The definitions below are a shallow embedding of src/quad_tree.rs (with the
Body record from src/body.rs and the per-step insertion loop from
src/simulation.rs).  Machine floats are modelled by an arbitrary linear
ordered field, instantiated at ℚ for executable witnesses and at ℝ for the
force computations, which use a real square root.  The recursive insertion
of the source has no structural termination measure (it recurses on an
ever-subdividing boundary), so it is embedded with an explicit fuel
parameter and returns `none` when the fuel is exhausted; every run of the
source that terminates is reproduced by the embedding with enough fuel.
Rust's four-iteration loops over quadrant/child arrays with `break` are
embedded by a first-match index search (`firstContainingIdx`) together with
read/update helpers (`childAt`, `setChildAt`, `quadrantAt`) over a
four-tuple of children.
-/

namespace Gravitas

variable {α : Type} [LinearOrderedField α]

/-- Embedding of `struct Body` from src/body.rs.  Only `position` and
`mass` are read by the quadtree core; the kinematic fields are carried
along untouched. -/
structure Body (α : Type) where
  position : α × α
  velocity : α × α
  acceleration : α × α
  mass : α
  radius : α
  deriving Repr, DecidableEq

/-- Embedding of `struct Boundary` from src/quad_tree.rs. -/
structure Boundary (α : Type) where
  x_min : α
  x_max : α
  y_min : α
  y_max : α
  deriving Repr, DecidableEq

/-- `Boundary::contains`: inclusive containment test on both axes. -/
def Boundary.contains (self : Boundary α) (x y : α) : Prop :=
  x ≥ self.x_min ∧ x ≤ self.x_max ∧ y ≥ self.y_min ∧ y ≤ self.y_max

instance (self : Boundary α) (x y : α) : Decidable (self.contains x y) := by
  unfold Boundary.contains
  infer_instance

/-- `Boundary::center`: midpoint of the bounds. -/
def Boundary.center (self : Boundary α) : α × α :=
  ((self.x_min + self.x_max) / 2, (self.y_min + self.y_max) / 2)

/-- `Boundary::subdivide`: the four midpoint quadrants, in the source's
array order (bottom-left, bottom-right, top-left, top-right). -/
def Boundary.subdivide (self : Boundary α) :
    Boundary α × Boundary α × Boundary α × Boundary α :=
  let c := self.center
  (⟨self.x_min, c.1, self.y_min, c.2⟩,
   ⟨c.1, self.x_max, self.y_min, c.2⟩,
   ⟨self.x_min, c.1, c.2, self.y_max⟩,
   ⟨c.1, self.x_max, c.2, self.y_max⟩)

/-- Embedding of `enum QuadTreeNode`.  The `[Option<Box<QuadTreeNode>>; 4]`
children array becomes a four-tuple of optional children. -/
inductive QuadTreeNode (α : Type) where
  | Empty : QuadTreeNode α
  | Leaf (body : Body α) : QuadTreeNode α
  | Internal (center_of_mass : α × α) (total_mass : α)
      (children : Option (QuadTreeNode α) × Option (QuadTreeNode α) ×
        Option (QuadTreeNode α) × Option (QuadTreeNode α)) : QuadTreeNode α

/-- The type of a node's children array. -/
abbrev Children (α : Type) :=
  Option (QuadTreeNode α) × Option (QuadTreeNode α) ×
    Option (QuadTreeNode α) × Option (QuadTreeNode α)

/-- Read `children[i]`. -/
def childAt (c : Children α) (i : Fin 4) : Option (QuadTreeNode α) :=
  match i.val with
  | 0 => c.1
  | 1 => c.2.1
  | 2 => c.2.2.1
  | _ => c.2.2.2

/-- Write `children[i]`. -/
def setChildAt (c : Children α) (i : Fin 4) (v : Option (QuadTreeNode α)) :
    Children α :=
  match i.val with
  | 0 => (v, c.2.1, c.2.2.1, c.2.2.2)
  | 1 => (c.1, v, c.2.2.1, c.2.2.2)
  | 2 => (c.1, c.2.1, v, c.2.2.2)
  | _ => (c.1, c.2.1, c.2.2.1, v)

/-- Read `quadrants[i]` from the result of `subdivide`. -/
def quadrantAt (q : Boundary α × Boundary α × Boundary α × Boundary α)
    (i : Fin 4) : Boundary α :=
  match i.val with
  | 0 => q.1
  | 1 => q.2.1
  | 2 => q.2.2.1
  | _ => q.2.2.2

/-- The source's `for (i, quadrant) in quadrants.iter().enumerate()`
loops with `break`: index of the first quadrant whose inclusive
`contains` test accepts the point, `none` when all four reject it. -/
def firstContainingIdx (q : Boundary α × Boundary α × Boundary α × Boundary α)
    (x y : α) : Option (Fin 4) :=
  if (q.1).contains x y then some 0
  else if (q.2.1).contains x y then some 1
  else if (q.2.2.1).contains x y then some 2
  else if (q.2.2.2).contains x y then some 3
  else none

/-- The body of `calculate_center_of_mass`'s loop over the children:
fold one child into the accumulated (total mass, x moment, y moment),
skipping absent and Empty children. -/
def comContribution (acc : α × α × α) (child : Option (QuadTreeNode α)) :
    α × α × α :=
  match child with
  | none => acc
  | some QuadTreeNode.Empty => acc
  | some (QuadTreeNode.Leaf body) =>
      (acc.1 + body.mass, acc.2.1 + body.position.1 * body.mass,
        acc.2.2 + body.position.2 * body.mass)
  | some (QuadTreeNode.Internal center_of_mass mass _) =>
      (acc.1 + mass, acc.2.1 + center_of_mass.1 * mass,
        acc.2.2 + center_of_mass.2 * mass)

/-- `QuadTreeNode::calculate_center_of_mass`: accumulate (total mass,
x moment, y moment) over the children in array order, then divide; the
`total_mass > 0.0` guard of the source is kept. -/
def QuadTreeNode.calculate_center_of_mass (children : Children α) : α × α :=
  let s := comContribution (comContribution (comContribution
    (comContribution (0, 0, 0) children.1) children.2.1) children.2.2.1)
    children.2.2.2
  if s.1 > 0 then (s.2.1 / s.1, s.2.2 / s.1) else (0, 0)

/-- `QuadTreeNode::insert`, with explicit fuel for the boundary-shrinking
recursion.  The three arms mirror the source: Empty becomes a Leaf; a Leaf
with a position-identical body is left unchanged; otherwise a Leaf splits,
routing first the existing body and then the new one into the first
containing quadrant (recursing when both land in the same child); an
Internal node routes the new body into the first containing quadrant
(an absent child starts as Empty) and then recomputes its aggregates,
adding the new mass unconditionally. -/
def QuadTreeNode.insert : Nat → QuadTreeNode α → Body α → Boundary α →
    Option (QuadTreeNode α)
  | 0, _, _, _ => none
  | Nat.succ fuel, node, body, boundary =>
    match node with
    | QuadTreeNode.Empty => some (QuadTreeNode.Leaf body)
    | QuadTreeNode.Leaf existing_body =>
      if existing_body.position = body.position then
        some (QuadTreeNode.Leaf existing_body)
      else
        let quadrants := boundary.subdivide
        let children : Children α :=
          match firstContainingIdx quadrants existing_body.position.1
              existing_body.position.2 with
          | none => (none, none, none, none)
          | some i => setChildAt (none, none, none, none) i
              (some (QuadTreeNode.Leaf existing_body))
        let inserted : Option (Children α) :=
          match firstContainingIdx quadrants body.position.1 body.position.2 with
          | none => some children
          | some i =>
            match childAt children i with
            | none => some (setChildAt children i (some (QuadTreeNode.Leaf body)))
            | some child =>
                (QuadTreeNode.insert fuel child body (quadrantAt quadrants i)).map
                  (fun child' => setChildAt children i (some child'))
        inserted.map (fun cs =>
          QuadTreeNode.Internal (QuadTreeNode.calculate_center_of_mass cs)
            (body.mass + existing_body.mass) cs)
    | QuadTreeNode.Internal _ total_mass cs =>
      let quadrants := boundary.subdivide
      let stepped : Option (Children α) :=
        match firstContainingIdx quadrants body.position.1 body.position.2 with
        | none => some cs
        | some i =>
            let child := (childAt cs i).getD QuadTreeNode.Empty
            (QuadTreeNode.insert fuel child body (quadrantAt quadrants i)).map
              (fun child' => setChildAt cs i (some child'))
      stepped.map (fun cs' =>
        QuadTreeNode.Internal (QuadTreeNode.calculate_center_of_mass cs')
          (total_mass + body.mass) cs')

mutual

/-- `QuadTreeNode::get_boundary`: walk into `children[0]`; anything that is
not an Internal node with a live first child yields the all-zero boundary. -/
def QuadTreeNode.get_boundary : QuadTreeNode α → Boundary α
  | QuadTreeNode.Internal _ _ (c0, _, _, _) => QuadTreeNode.get_boundaryO c0
  | QuadTreeNode.Empty => ⟨0, 0, 0, 0⟩
  | QuadTreeNode.Leaf _ => ⟨0, 0, 0, 0⟩

/-- Option-lifted companion of `get_boundary` (the `if let Some(child)`
of the source). -/
def QuadTreeNode.get_boundaryO : Option (QuadTreeNode α) → Boundary α
  | some child => child.get_boundary
  | none => ⟨0, 0, 0, 0⟩

end

/-- `QuadTreeNode::get_boundary_size`: x extent of `children[0]`'s
recovered boundary. -/
def QuadTreeNode.get_boundary_size (node : QuadTreeNode α) : α :=
  match node with
  | QuadTreeNode.Internal _ _ (some child, _, _, _) =>
      let boundary := child.get_boundary
      boundary.x_max - boundary.x_min
  | QuadTreeNode.Internal _ _ (none, _, _, _) => 0
  | QuadTreeNode.Empty => 0
  | QuadTreeNode.Leaf _ => 0

mutual

/-- All bodies reachable beneath a node, in child-array order.  This is the
specification-side observation function used to state the aggregate
invariants; it does not occur in the source. -/
def QuadTreeNode.bodiesIn : QuadTreeNode α → List (Body α)
  | QuadTreeNode.Empty => []
  | QuadTreeNode.Leaf b => [b]
  | QuadTreeNode.Internal _ _ (c0, c1, c2, c3) =>
      QuadTreeNode.bodiesInO c0 ++ QuadTreeNode.bodiesInO c1 ++
        QuadTreeNode.bodiesInO c2 ++ QuadTreeNode.bodiesInO c3

/-- Option-lifted companion of `bodiesIn`. -/
def QuadTreeNode.bodiesInO : Option (QuadTreeNode α) → List (Body α)
  | none => []
  | some t => QuadTreeNode.bodiesIn t

end

/-- The aggregate mass a node reports: 0 for Empty, the body's mass for a
Leaf, the cached `total_mass` for an Internal node. -/
def QuadTreeNode.totalMass : QuadTreeNode α → α
  | QuadTreeNode.Empty => 0
  | QuadTreeNode.Leaf b => b.mass
  | QuadTreeNode.Internal _ total_mass _ => total_mass

/-- Sum of the masses of a list of bodies. -/
def massSum (l : List (Body α)) : α := (l.map Body.mass).sum

/-- Mass-weighted sum of x coordinates. -/
def weightedX (l : List (Body α)) : α := (l.map (fun b => b.position.1 * b.mass)).sum

/-- Mass-weighted sum of y coordinates. -/
def weightedY (l : List (Body α)) : α := (l.map (fun b => b.position.2 * b.mass)).sum

mutual

/-- Mass invariant: every Internal node's cached `total_mass` is the sum of
the masses of the bodies reachable beneath it. -/
def QuadTreeNode.massOK : QuadTreeNode α → Prop
  | QuadTreeNode.Empty => True
  | QuadTreeNode.Leaf _ => True
  | QuadTreeNode.Internal _ total_mass (c0, c1, c2, c3) =>
      total_mass = massSum (QuadTreeNode.bodiesInO c0 ++ QuadTreeNode.bodiesInO c1 ++
          QuadTreeNode.bodiesInO c2 ++ QuadTreeNode.bodiesInO c3) ∧
        QuadTreeNode.massOKO c0 ∧ QuadTreeNode.massOKO c1 ∧
        QuadTreeNode.massOKO c2 ∧ QuadTreeNode.massOKO c3

/-- Option-lifted companion of `massOK`. -/
def QuadTreeNode.massOKO : Option (QuadTreeNode α) → Prop
  | none => True
  | some t => t.massOK

end

mutual

/-- Center-of-mass invariant: every Internal node's cached
`center_of_mass` is the mass-weighted average position of the bodies
reachable beneath it. -/
def QuadTreeNode.comOK : QuadTreeNode α → Prop
  | QuadTreeNode.Empty => True
  | QuadTreeNode.Leaf _ => True
  | QuadTreeNode.Internal center_of_mass _ (c0, c1, c2, c3) =>
      (let l := QuadTreeNode.bodiesInO c0 ++ QuadTreeNode.bodiesInO c1 ++
          QuadTreeNode.bodiesInO c2 ++ QuadTreeNode.bodiesInO c3
       center_of_mass = (weightedX l / massSum l, weightedY l / massSum l)) ∧
        QuadTreeNode.comOKO c0 ∧ QuadTreeNode.comOKO c1 ∧
        QuadTreeNode.comOKO c2 ∧ QuadTreeNode.comOKO c3

/-- Option-lifted companion of `comOK`. -/
def QuadTreeNode.comOKO : Option (QuadTreeNode α) → Prop
  | none => True
  | some t => t.comOK

end

mutual

/-- Spatial well-formedness relative to a boundary: a Leaf's body lies in
the boundary, and each child of an Internal node is well formed for its
quadrant of the boundary's subdivision. -/
def QuadTreeNode.wf (bd : Boundary α) : QuadTreeNode α → Prop
  | QuadTreeNode.Empty => True
  | QuadTreeNode.Leaf b => bd.contains b.position.1 b.position.2
  | QuadTreeNode.Internal _ _ (c0, c1, c2, c3) =>
      QuadTreeNode.wfO (bd.subdivide).1 c0 ∧
        QuadTreeNode.wfO (bd.subdivide).2.1 c1 ∧
        QuadTreeNode.wfO (bd.subdivide).2.2.1 c2 ∧
        QuadTreeNode.wfO (bd.subdivide).2.2.2 c3

/-- Option-lifted companion of `wf`. -/
def QuadTreeNode.wfO (bd : Boundary α) : Option (QuadTreeNode α) → Prop
  | none => True
  | some t => t.wf bd

end

/-- Embedding of `struct QuadTree`: a root node bound to a fixed boundary. -/
structure QuadTree (α : Type) where
  root : QuadTreeNode α
  boundary : Boundary α

/-- `QuadTree::new`. -/
def QuadTree.new (boundary : Boundary α) : QuadTree α :=
  ⟨QuadTreeNode.Empty, boundary⟩

/-- `QuadTree::insert`: delegate to the root with the fixed boundary. -/
def QuadTree.insert (fuel : Nat) (self : QuadTree α) (body : Body α) :
    Option (QuadTree α) :=
  (self.root.insert fuel body self.boundary).map (fun r => ⟨r, self.boundary⟩)

/-- `QuadTree::get_boundary`. -/
def QuadTree.get_boundary (self : QuadTree α) : Boundary α := self.boundary

/-- The tree-building loop of `Simulation::update`: insert the bodies of a
list in order. -/
def QuadTree.insertList (fuel : Nat) (self : QuadTree α) :
    List (Body α) → Option (QuadTree α)
  | [] => some self
  | b :: rest =>
    match self.insert fuel b with
    | none => none
    | some qt => qt.insertList fuel rest

/-- `calculate_gravity` from src/quad_tree.rs, over exact reals. -/
noncomputable def calculate_gravity (body : Body ℝ) (other_pos : ℝ × ℝ)
    (other_mass : ℝ) : ℝ × ℝ :=
  let G : ℝ := 6.67430e-11
  let dx := other_pos.1 - body.position.1
  let dy := other_pos.2 - body.position.2
  let d_squared := dx * dx + dy * dy
  let d := Real.sqrt d_squared
  if d < 1e-10 then (0, 0)
  else
    let force := G * body.mass * other_mass / d_squared
    (force * dx / d, force * dy / d)

mutual

/-- `QuadTreeNode::calculate_force`: zero for Empty, pairwise gravity for a
Leaf (zero against an identically-positioned body), and for an Internal
node the opening-angle test `d == 0.0 || s / d < theta` choosing between
the point-mass approximation and summing over the children. -/
noncomputable def QuadTreeNode.calculate_force : QuadTreeNode ℝ → Body ℝ → ℝ → ℝ × ℝ
  | QuadTreeNode.Empty, _, _ => (0, 0)
  | QuadTreeNode.Leaf other_body, body, _ =>
      if body.position = other_body.position then (0, 0)
      else calculate_gravity body other_body.position other_body.mass
  | QuadTreeNode.Internal center_of_mass total_mass (c0, c1, c2, c3), body, theta =>
      let dx := center_of_mass.1 - body.position.1
      let dy := center_of_mass.2 - body.position.2
      let d := Real.sqrt (dx * dx + dy * dy)
      if d = 0 ∨
          (QuadTreeNode.Internal center_of_mass total_mass
            (c0, c1, c2, c3)).get_boundary_size / d < theta then
        calculate_gravity body center_of_mass total_mass
      else
        let f0 := QuadTreeNode.calculate_forceO c0 body theta
        let f1 := QuadTreeNode.calculate_forceO c1 body theta
        let f2 := QuadTreeNode.calculate_forceO c2 body theta
        let f3 := QuadTreeNode.calculate_forceO c3 body theta
        (f0.1 + f1.1 + f2.1 + f3.1, f0.2 + f1.2 + f2.2 + f3.2)

/-- Option-lifted companion of `calculate_force` (an absent child
contributes nothing to the force sum). -/
noncomputable def QuadTreeNode.calculate_forceO : Option (QuadTreeNode ℝ) → Body ℝ → ℝ → ℝ × ℝ
  | none, _, _ => (0, 0)
  | some child, body, theta => child.calculate_force body theta

end

/-- `QuadTree::calculate_force`: delegate to the root. -/
noncomputable def QuadTree.calculate_force (self : QuadTree ℝ) (body : Body ℝ)
    (theta : ℝ) : ℝ × ℝ :=
  self.root.calculate_force body theta

/-! ### Concrete fixtures used by witnesses and counterexamples -/

/-- A 4 by 4 rational boundary anchored at the origin. -/
def bdQ : Boundary ℚ := ⟨0, 4, 0, 4⟩

/-- A rational body at `(x, y)` of mass `m` at rest. -/
def mkBody (x y m : ℚ) : Body ℚ := ⟨(x, y), (0, 0), (0, 0), m, 1⟩

/-! ### Routing lemmas for the first-matching-quadrant search -/

theorem firstContainingIdx_eq_none_iff
    (q : Boundary α × Boundary α × Boundary α × Boundary α) (x y : α) :
    firstContainingIdx q x y = none ↔
      ∀ i : Fin 4, ¬ (quadrantAt q i).contains x y := by
  unfold firstContainingIdx
  split_ifs with h0 h1 h2 h3
  · exact iff_of_false (by simp) (fun hall => hall 0 h0)
  · exact iff_of_false (by simp) (fun hall => hall 1 h1)
  · exact iff_of_false (by simp) (fun hall => hall 2 h2)
  · exact iff_of_false (by simp) (fun hall => hall 3 h3)
  · refine iff_of_true rfl ?_
    intro i
    fin_cases i
    · exact h0
    · exact h1
    · exact h2
    · exact h3

theorem firstContainingIdx_some_contains
    {q : Boundary α × Boundary α × Boundary α × Boundary α} {x y : α} {i : Fin 4}
    (h : firstContainingIdx q x y = some i) : (quadrantAt q i).contains x y := by
  unfold firstContainingIdx at h
  split_ifs at h with h0 h1 h2 h3 <;>
    (injection h with h; subst h) <;> assumption

/-- Every point of a boundary lands in at least one subdivided quadrant. -/
theorem subdivide_covers {bd : Boundary α} {x y : α} (h : bd.contains x y) :
    ∃ i : Fin 4, (quadrantAt bd.subdivide i).contains x y := by
  obtain ⟨hx0, hx1, hy0, hy1⟩ := h
  rcases le_total x ((bd.x_min + bd.x_max) / 2) with hx | hx <;>
    rcases le_total y ((bd.y_min + bd.y_max) / 2) with hy | hy
  · exact ⟨0, hx0, hx, hy0, hy⟩
  · exact ⟨2, hx0, hx, hy, hy1⟩
  · exact ⟨1, hx, hx1, hy0, hy⟩
  · exact ⟨3, hx, hx1, hy, hy1⟩

/-- A contained point is routed to some quadrant by the first-match search. -/
theorem firstContainingIdx_isSome_of_contains {bd : Boundary α} {x y : α}
    (h : bd.contains x y) :
    ∃ i : Fin 4, firstContainingIdx bd.subdivide x y = some i := by
  rcases Option.eq_none_or_eq_some (firstContainingIdx bd.subdivide x y) with hn | hs
  · obtain ⟨i, hi⟩ := subdivide_covers h
    exact absurd hi (((firstContainingIdx_eq_none_iff _ _ _).1 hn) i)
  · exact ⟨hs.choose, hs.choose_spec⟩

/-- Each subdivided quadrant lies inside its parent boundary. -/
theorem quadrant_subset {bd : Boundary α} (hx : bd.x_min ≤ bd.x_max)
    (hy : bd.y_min ≤ bd.y_max) (i : Fin 4) {x y : α}
    (h : (quadrantAt bd.subdivide i).contains x y) : bd.contains x y := by
  have hcx1 : bd.x_min ≤ (bd.x_min + bd.x_max) / 2 := by linarith
  have hcx2 : (bd.x_min + bd.x_max) / 2 ≤ bd.x_max := by linarith
  have hcy1 : bd.y_min ≤ (bd.y_min + bd.y_max) / 2 := by linarith
  have hcy2 : (bd.y_min + bd.y_max) / 2 ≤ bd.y_max := by linarith
  fin_cases i <;>
    simp only [quadrantAt, Boundary.subdivide, Boundary.center,
      Boundary.contains] at h <;>
    obtain ⟨h1, h2, h3, h4⟩ := h <;>
    exact ⟨by linarith, by linarith, by linarith, by linarith⟩

/-- Claim C10: for a boundary with ordered bounds, `subdivide` returns the
four midpoint-split quadrants in the fixed order bottom-left, bottom-right,
top-left, top-right; their union exactly covers the parent (a point is in
the parent iff it is in some quadrant, and every quadrant lies within the
parent), and two distinct quadrants can share a point only on a midline. -/
theorem C10_subdivide_partition (bd : Boundary α)
    (hx : bd.x_min ≤ bd.x_max) (hy : bd.y_min ≤ bd.y_max) :
    (bd.subdivide =
      (⟨bd.x_min, (bd.x_min + bd.x_max) / 2, bd.y_min, (bd.y_min + bd.y_max) / 2⟩,
       ⟨(bd.x_min + bd.x_max) / 2, bd.x_max, bd.y_min, (bd.y_min + bd.y_max) / 2⟩,
       ⟨bd.x_min, (bd.x_min + bd.x_max) / 2, (bd.y_min + bd.y_max) / 2, bd.y_max⟩,
       ⟨(bd.x_min + bd.x_max) / 2, bd.x_max, (bd.y_min + bd.y_max) / 2, bd.y_max⟩)) ∧
    (∀ x y : α, bd.contains x y ↔
      ∃ i : Fin 4, (quadrantAt bd.subdivide i).contains x y) ∧
    (∀ (i j : Fin 4) (x y : α), i ≠ j →
      (quadrantAt bd.subdivide i).contains x y →
      (quadrantAt bd.subdivide j).contains x y →
      x = (bd.x_min + bd.x_max) / 2 ∨ y = (bd.y_min + bd.y_max) / 2) := by
  refine ⟨rfl, ?_, ?_⟩
  · intro x y
    exact ⟨fun h => subdivide_covers h, fun ⟨i, hi⟩ => quadrant_subset hx hy i hi⟩
  · intro i j x y hij hi hj
    fin_cases i <;> fin_cases j <;>
      simp only [quadrantAt, Boundary.subdivide, Boundary.center,
        Boundary.contains] at hi hj <;>
      obtain ⟨a1, a2, a3, a4⟩ := hi <;> obtain ⟨b1, b2, b3, b4⟩ := hj <;>
      first
        | exact absurd rfl hij
        | (left; linarith)
        | (right; linarith)

/-- Witness for C10 at the concrete rational boundary `[0,4] × [0,4]`. -/
theorem C10_subdivide_partition_witness :
    ((0:ℚ) ≤ 4 ∧ (0:ℚ) ≤ 4) ∧
    (∀ x y : ℚ, bdQ.contains x y ↔
      ∃ i : Fin 4, (quadrantAt bdQ.subdivide i).contains x y) :=
  ⟨⟨by norm_num, by norm_num⟩,
    (C10_subdivide_partition bdQ (by decide) (by decide)).2.1⟩

/-- Claim C8: inserting into a Leaf a body whose position is exactly equal
to the stored body's position terminates (with any positive fuel) and
leaves the node unchanged: a silent no-op. -/
theorem C8_coincident_insert_noop (fuel : Nat) (ex body : Body α)
    (bd : Boundary α) (h : ex.position = body.position) :
    QuadTreeNode.insert (fuel + 1) (QuadTreeNode.Leaf ex) body bd =
      some (QuadTreeNode.Leaf ex) := by
  simp [QuadTreeNode.insert, h]

/-- Witness for C8: two coincident rational bodies of different mass. -/
theorem C8_coincident_insert_noop_witness :
    (mkBody 1 1 1).position = (mkBody 1 1 5).position ∧
    QuadTreeNode.insert 3 (QuadTreeNode.Leaf (mkBody 1 1 1)) (mkBody 1 1 5) bdQ =
      some (QuadTreeNode.Leaf (mkBody 1 1 1)) :=
  ⟨rfl, C8_coincident_insert_noop 2 (mkBody 1 1 1) (mkBody 1 1 5) bdQ rfl⟩

/-! ### The boundary-recovery functions always return the zero boundary -/

theorem QuadTreeNode.get_boundary_zero (t : QuadTreeNode α) :
    t.get_boundary = (⟨0, 0, 0, 0⟩ : Boundary α) := by
  refine QuadTreeNode.get_boundary.induct
    (fun t : QuadTreeNode α => t.get_boundary = ⟨0, 0, 0, 0⟩)
    (fun o : Option (QuadTreeNode α) => QuadTreeNode.get_boundaryO o = ⟨0, 0, 0, 0⟩)
    ?_ ?_ ?_ ?_ ?_ t
  · intro com tm c0 c1 c2 c3 ih
    simpa [QuadTreeNode.get_boundary] using ih
  · rfl
  · intro b; rfl
  · intro child ih
    simpa [QuadTreeNode.get_boundaryO] using ih
  · rfl

theorem QuadTreeNode.get_boundary_size_zero (t : QuadTreeNode α) :
    t.get_boundary_size = 0 := by
  match t with
  | QuadTreeNode.Internal com tm (some child, c1, c2, c3) =>
      simp [QuadTreeNode.get_boundary_size, QuadTreeNode.get_boundary_zero child]
  | QuadTreeNode.Internal com tm (none, c1, c2, c3) => rfl
  | QuadTreeNode.Empty => rfl
  | QuadTreeNode.Leaf b => rfl

/-- For any positive theta, the opening-angle test of an Internal node
always succeeds (its boundary size is 0), so force evaluation is the
point-mass approximation against the cached aggregates. -/
theorem calculate_force_internal_point_mass (com : ℝ × ℝ) (tm : ℝ)
    (cs : Children ℝ) (body : Body ℝ) {theta : ℝ} (htheta : 0 < theta) :
    (QuadTreeNode.Internal com tm cs).calculate_force body theta =
      calculate_gravity body com tm := by
  obtain ⟨c0, c1, c2, c3⟩ := cs
  simp only [QuadTreeNode.calculate_force, QuadTreeNode.get_boundary_size_zero,
    zero_div, htheta, or_true, if_true]

/-- Claim C4: `get_boundary_size` returns 0 for every tree (no node variant
stores a boundary, so `get_boundary` always bottoms out at the all-zero
boundary); hence for any Internal node, any positive theta and any query
body at nonzero distance from the node's center of mass, `calculate_force`
returns the single point-mass force against the node's aggregates and never
recurses into the children. -/
theorem C4_opening_angle_always_point_mass (com : ℝ × ℝ) (tm : ℝ)
    (cs : Children ℝ) (body : Body ℝ) (theta : ℝ) (htheta : 0 < theta)
    (_hd : Real.sqrt ((com.1 - body.position.1) * (com.1 - body.position.1) +
      (com.2 - body.position.2) * (com.2 - body.position.2)) ≠ 0) :
    (∀ t : QuadTreeNode ℝ, t.get_boundary_size = 0) ∧
    (QuadTreeNode.Internal com tm cs).calculate_force body theta =
      calculate_gravity body com tm :=
  ⟨fun t => t.get_boundary_size_zero,
    calculate_force_internal_point_mass com tm cs body htheta⟩

/-- A real-valued body at the origin, used by witnesses over ℝ. -/
def bodyR0 : Body ℝ := ⟨(0, 0), (0, 0), (0, 0), 1, 1⟩

/-- Witness for C4 at a concrete Internal node and query body. -/
theorem C4_opening_angle_always_point_mass_witness :
    (0:ℝ) < 1 ∧
    Real.sqrt ((1 - (0:ℝ)) * (1 - 0) + (0 - 0) * (0 - 0)) ≠ 0 ∧
    (QuadTreeNode.Internal ((1:ℝ), 0) 5
        (none, none, none, none)).calculate_force bodyR0 1 =
      calculate_gravity bodyR0 (1, 0) 5 := by
  have h1 : ((1:ℝ) - 0) * (1 - 0) + (0 - 0) * (0 - 0) = 1 := by norm_num
  have hd : Real.sqrt ((1 - (0:ℝ)) * (1 - 0) + (0 - 0) * (0 - 0)) ≠ 0 := by
    rw [h1, Real.sqrt_one]; norm_num
  exact ⟨by norm_num, hd,
    (C4_opening_angle_always_point_mass ((1:ℝ), 0) 5 (none, none, none, none)
      bodyR0 1 (by norm_num) hd).2⟩

/-- Claim C9: a body contained in none of the four subdivided quadrants is
stored in no child, yet the aggregate mass still grows by its mass: the
Internal arm increments `total_mass` unconditionally, and the Leaf-split
arm sums both masses while dropping the new body. -/
theorem C9_out_of_bounds_phantom_mass (fuel : Nat) (body : Body α)
    (bd : Boundary α)
    (h : ∀ i : Fin 4,
      ¬ (quadrantAt bd.subdivide i).contains body.position.1 body.position.2) :
    (∀ (com : α × α) (tm : α) (cs : Children α),
      ∃ t', QuadTreeNode.insert (fuel + 1) (QuadTreeNode.Internal com tm cs)
          body bd = some t' ∧
        t'.bodiesIn = (QuadTreeNode.Internal com tm cs).bodiesIn ∧
        t'.totalMass = tm + body.mass) ∧
    (∀ ex : Body α, ex.position ≠ body.position →
      ∃ t', QuadTreeNode.insert (fuel + 1) (QuadTreeNode.Leaf ex) body bd =
          some t' ∧
        (∀ b ∈ t'.bodiesIn, b.position ≠ body.position) ∧
        t'.totalMass = body.mass + ex.mass) := by
  have hnone : firstContainingIdx bd.subdivide body.position.1 body.position.2 =
      none := (firstContainingIdx_eq_none_iff _ _ _).2 h
  constructor
  · intro com tm cs
    obtain ⟨c0, c1, c2, c3⟩ := cs
    refine ⟨QuadTreeNode.Internal
        (QuadTreeNode.calculate_center_of_mass (c0, c1, c2, c3))
        (tm + body.mass) (c0, c1, c2, c3), ?_, rfl, rfl⟩
    simp [QuadTreeNode.insert, hnone]
  · intro ex hne
    rcases hfi : firstContainingIdx bd.subdivide ex.position.1 ex.position.2
      with _ | i
    · refine ⟨QuadTreeNode.Internal
          (QuadTreeNode.calculate_center_of_mass (none, none, none, none))
          (body.mass + ex.mass) (none, none, none, none), ?_, ?_, rfl⟩
      · simp [QuadTreeNode.insert, hne, hnone, hfi]
      · simp [QuadTreeNode.bodiesIn, QuadTreeNode.bodiesInO]
    · refine ⟨QuadTreeNode.Internal
          (QuadTreeNode.calculate_center_of_mass
            (setChildAt (none, none, none, none) i
              (some (QuadTreeNode.Leaf ex))))
          (body.mass + ex.mass)
          (setChildAt (none, none, none, none) i
            (some (QuadTreeNode.Leaf ex))), ?_, ?_, rfl⟩
      · simp [QuadTreeNode.insert, hne, hnone, hfi]
      · fin_cases i <;>
          simp [setChildAt, QuadTreeNode.bodiesIn, QuadTreeNode.bodiesInO] <;>
          exact hne

/-- Witness for C9: the body at `(9, 9)` lies outside every quadrant of
`[0,4] × [0,4]`; inserting it below an Internal node adds its mass while
leaving the stored bodies unchanged. -/
theorem C9_out_of_bounds_phantom_mass_witness :
    (∀ i : Fin 4, ¬ (quadrantAt bdQ.subdivide i).contains (9:ℚ) 9) ∧
    (∃ t', QuadTreeNode.insert 3
        (QuadTreeNode.Internal ((2:ℚ), 2) 7
          (some (QuadTreeNode.Leaf (mkBody 1 1 7)), none, none, none))
        (mkBody 9 9 1) bdQ = some t' ∧
      t'.bodiesIn = (QuadTreeNode.Internal ((2:ℚ), 2) 7
        (some (QuadTreeNode.Leaf (mkBody 1 1 7)), none, none, none)).bodiesIn ∧
      t'.totalMass = 7 + (mkBody 9 9 1).mass) := by
  have hall : ∀ i : Fin 4, ¬ (quadrantAt bdQ.subdivide i).contains (9:ℚ) 9 := by
    intro i
    fin_cases i <;>
      norm_num [quadrantAt, Boundary.subdivide, Boundary.center,
        Boundary.contains, bdQ]
  exact ⟨hall,
    (C9_out_of_bounds_phantom_mass 2 (mkBody 9 9 1) bdQ hall).1
      (2, 2) 7 (some (QuadTreeNode.Leaf (mkBody 1 1 7)), none, none, none)⟩

/-- Evaluation theorem for C2 (a code bug): the two-body tree over
`[0,4] × [0,4]` puts its bodies in quadrants of side 2, yet
`get_boundary_size` reports 0 because no node variant stores a boundary. -/
theorem C2_boundary_size_lost :
    QuadTree.insertList 5 (QuadTree.new bdQ) [mkBody 1 1 1, mkBody 3 3 1] =
      some ⟨QuadTreeNode.Internal (2, 2) 2
        (some (QuadTreeNode.Leaf (mkBody 1 1 1)), none, none,
          some (QuadTreeNode.Leaf (mkBody 3 3 1))), bdQ⟩ ∧
    (QuadTreeNode.Internal ((2:ℚ), 2) 2
      (some (QuadTreeNode.Leaf (mkBody 1 1 1)), none, none,
        some (QuadTreeNode.Leaf (mkBody 3 3 1)))).get_boundary_size = 0 ∧
    (bdQ.subdivide).1.x_max - (bdQ.subdivide).1.x_min = 2 := by
  refine ⟨?_, ?_, ?_⟩
  · norm_num [QuadTree.insertList, QuadTree.insert, QuadTree.new,
      QuadTreeNode.insert, firstContainingIdx, Boundary.contains,
      Boundary.subdivide, Boundary.center, quadrantAt, childAt, setChildAt,
      QuadTreeNode.calculate_center_of_mass, comContribution, bdQ, mkBody,
      Prod.ext_iff]
  · norm_num [QuadTreeNode.get_boundary_size, QuadTreeNode.get_boundary,
      QuadTreeNode.get_boundaryO]
  · norm_num [bdQ, Boundary.subdivide, Boundary.center]

/-- Claim C7: `calculate_gravity` returns the zero vector when the distance
between the two positions is below the epsilon 1e-10, and otherwise an
attractive force of magnitude G·m₁·m₂/d² directed from the query body
toward the other position (masses positive, per the data model). -/
theorem C7_pairwise_gravity (body : Body ℝ) (other_pos : ℝ × ℝ)
    (other_mass : ℝ) (hm1 : 0 < body.mass) (hm2 : 0 < other_mass) :
    (Real.sqrt ((other_pos.1 - body.position.1) * (other_pos.1 - body.position.1) +
        (other_pos.2 - body.position.2) * (other_pos.2 - body.position.2)) < 1e-10 →
      calculate_gravity body other_pos other_mass = (0, 0)) ∧
    (¬ Real.sqrt ((other_pos.1 - body.position.1) * (other_pos.1 - body.position.1) +
        (other_pos.2 - body.position.2) * (other_pos.2 - body.position.2)) < 1e-10 →
      Real.sqrt ((calculate_gravity body other_pos other_mass).1 *
          (calculate_gravity body other_pos other_mass).1 +
        (calculate_gravity body other_pos other_mass).2 *
          (calculate_gravity body other_pos other_mass).2) =
        6.67430e-11 * body.mass * other_mass /
          (Real.sqrt ((other_pos.1 - body.position.1) * (other_pos.1 - body.position.1) +
              (other_pos.2 - body.position.2) * (other_pos.2 - body.position.2)) *
            Real.sqrt ((other_pos.1 - body.position.1) * (other_pos.1 - body.position.1) +
              (other_pos.2 - body.position.2) * (other_pos.2 - body.position.2))) ∧
      ∃ c : ℝ, 0 < c ∧ calculate_gravity body other_pos other_mass =
        (c * (other_pos.1 - body.position.1),
         c * (other_pos.2 - body.position.2))) := by
  set dx := other_pos.1 - body.position.1 with hdx
  set dy := other_pos.2 - body.position.2 with hdy
  set dsq := dx * dx + dy * dy with hdsqdef
  set d := Real.sqrt dsq with hddef
  constructor
  · intro h
    simp only [calculate_gravity]
    rw [if_pos h]
  · intro h
    have hd10 : (1e-10 : ℝ) ≤ d := not_lt.1 h
    have hd0 : 0 < d := lt_of_lt_of_le (by norm_num) hd10
    have hdsq : d * d = dsq := Real.mul_self_sqrt
      (by rw [hdsqdef]; exact add_nonneg (mul_self_nonneg dx) (mul_self_nonneg dy))
    have hdsq0 : 0 < dsq := hdsq ▸ mul_pos hd0 hd0
    set k : ℝ := 6.67430e-11 * body.mass * other_mass / dsq with hkdef
    have hk : 0 < k :=
      div_pos (mul_pos (mul_pos (by norm_num) hm1) hm2) hdsq0
    have heval : calculate_gravity body other_pos other_mass =
        (k * dx / d, k * dy / d) := by
      simp only [calculate_gravity]
      rw [if_neg h]
    refine ⟨?_, k / d, div_pos hk hd0, ?_⟩
    · rw [heval]
      have hsum : k * dx / d * (k * dx / d) + k * dy / d * (k * dy / d) =
          k * k * dsq / (d * d) := by
        rw [hdsqdef]; ring
      rw [hsum, hdsq, mul_div_assoc, div_self hdsq0.ne', mul_one,
        Real.sqrt_mul_self hk.le, hkdef]
    · rw [heval]
      have h1 : k * dx / d = k / d * dx := by ring
      have h2 : k * dy / d = k / d * dy := by ring
      rw [h1, h2]

/-- Witness for C7: query body of mass 1 at the origin against a point mass
2 at `(3, 4)`. -/
theorem C7_pairwise_gravity_witness :
    ((0:ℝ) < bodyR0.mass ∧ (0:ℝ) < 2) ∧
    (Real.sqrt (((3:ℝ) - bodyR0.position.1) * (3 - bodyR0.position.1) +
        ((4:ℝ) - bodyR0.position.2) * (4 - bodyR0.position.2)) < 1e-10 →
      calculate_gravity bodyR0 (3, 4) 2 = (0, 0)) :=
  ⟨⟨by norm_num [bodyR0], by norm_num⟩,
    (C7_pairwise_gravity bodyR0 (3, 4) 2 (by norm_num [bodyR0]) (by norm_num)).1⟩

/-- Evaluation helper: `calculate_gravity` outside the epsilon guard,
with the distance square root supplied explicitly. -/
theorem calculate_gravity_eval (body : Body ℝ) (other_pos : ℝ × ℝ)
    (other_mass dx dy dv : ℝ) (hdx : other_pos.1 - body.position.1 = dx)
    (hdy : other_pos.2 - body.position.2 = dy)
    (hd : Real.sqrt (dx * dx + dy * dy) = dv) (h10 : ¬ dv < 1e-10) :
    calculate_gravity body other_pos other_mass =
      (6.67430e-11 * body.mass * other_mass / (dx * dx + dy * dy) * dx / dv,
       6.67430e-11 * body.mass * other_mass / (dx * dx + dy * dy) * dy / dv) := by
  simp only [calculate_gravity]
  rw [hdx, hdy, hd, if_neg h10]

/-- The unit-square real boundary used by the symmetry counterexample. -/
def bdR : Boundary ℝ := ⟨0, 1, 0, 1⟩

/-- Mass-2 body at `(1, 0)`. -/
def bodyB2 : Body ℝ := ⟨(1, 0), (0, 0), (0, 0), 2, 1⟩

/-- The tree the source builds from `bodyR0` then `bodyB2` on `bdR`. -/
noncomputable def tC6 : QuadTreeNode ℝ := QuadTreeNode.Internal (2 / 3, 0) 3
  (some (QuadTreeNode.Leaf bodyR0), some (QuadTreeNode.Leaf bodyB2), none, none)

/-- Evaluation theorem for C6 (a code bug): with bodies of mass 1 at
`(0,0)` and mass 2 at `(1,0)` in the unit square and theta = 0.5, the
force on each body is computed against the aggregate center of mass that
includes the body itself, giving `(27/4·G, 0)` on A but `(-54·G, 0)` on B:
opposite directions but unequal magnitudes, violating symmetry. -/
theorem C6_symmetry_violated :
    QuadTreeNode.insert 5 QuadTreeNode.Empty bodyR0 bdR =
      some (QuadTreeNode.Leaf bodyR0) ∧
    QuadTreeNode.insert 5 (QuadTreeNode.Leaf bodyR0) bodyB2 bdR = some tC6 ∧
    tC6.calculate_force bodyR0 (1 / 2) = (27 / 4 * 6.67430e-11, 0) ∧
    tC6.calculate_force bodyB2 (1 / 2) = (-(54 * 6.67430e-11), 0) ∧
    (tC6.calculate_force bodyR0 (1 / 2)).1 ≠
      -(tC6.calculate_force bodyB2 (1 / 2)).1 := by
  have hA : tC6.calculate_force bodyR0 (1 / 2) =
      calculate_gravity bodyR0 (2 / 3, 0) 3 :=
    calculate_force_internal_point_mass _ _ _ _ (by norm_num)
  have hB : tC6.calculate_force bodyB2 (1 / 2) =
      calculate_gravity bodyB2 (2 / 3, 0) 3 :=
    calculate_force_internal_point_mass _ _ _ _ (by norm_num)
  have hgA : calculate_gravity bodyR0 (2 / 3, 0) 3 = (27 / 4 * 6.67430e-11, 0) := by
    rw [calculate_gravity_eval bodyR0 (2 / 3, 0) 3 (2 / 3) 0 (2 / 3)
      (by norm_num [bodyR0]) (by norm_num [bodyR0])
      (by rw [show ((2:ℝ) / 3 * (2 / 3) + 0 * 0) = 2 / 3 * (2 / 3) by ring,
        Real.sqrt_mul_self (by norm_num : (0:ℝ) ≤ 2 / 3)]) (by norm_num)]
    norm_num [bodyR0, Prod.ext_iff]
  have hgB : calculate_gravity bodyB2 (2 / 3, 0) 3 = (-(54 * 6.67430e-11), 0) := by
    rw [calculate_gravity_eval bodyB2 (2 / 3, 0) 3 (-(1 / 3)) 0 (1 / 3)
      (by norm_num [bodyB2]) (by norm_num [bodyB2])
      (by rw [show (-((1:ℝ) / 3) * -(1 / 3) + 0 * 0) = 1 / 3 * (1 / 3) by ring,
        Real.sqrt_mul_self (by norm_num : (0:ℝ) ≤ 1 / 3)]) (by norm_num)]
    norm_num [bodyB2, Prod.ext_iff]
  refine ⟨rfl, ?_, hA.trans hgA, hB.trans hgB, ?_⟩
  · norm_num [QuadTreeNode.insert, firstContainingIdx, Boundary.contains,
      Boundary.subdivide, Boundary.center, quadrantAt, childAt, setChildAt,
      QuadTreeNode.calculate_center_of_mass, comContribution, bdR, bodyR0,
      bodyB2, tC6,
      Prod.ext_iff]
  · rw [hA.trans hgA, hB.trans hgB]
    norm_num

/-- The two-body scenario fixtures of the spec: Earth-like and Moon-like
masses separated by `3.844e8` on the x axis. -/
def b1C5 : Body ℝ := ⟨(0, 0), (0, 0), (0, 0), 5.97e24, 1⟩

/-- The lighter body of the two-body scenario. -/
def b2C5 : Body ℝ := ⟨(3.844e8, 0), (0, 0), (0, 0), 7.35e22, 1⟩

/-- A boundary spanning the two-body scenario. -/
def bdC5 : Boundary ℝ := ⟨0, 3.844e8, 0, 3.844e8⟩

/-- The tree the source builds from the two scenario bodies. -/
noncomputable def tC5 : QuadTreeNode ℝ := QuadTreeNode.Internal
  (3.844e8 * 7.35e22 / (5.97e24 + 7.35e22), 0) (7.35e22 + 5.97e24)
  (some (QuadTreeNode.Leaf b1C5), some (QuadTreeNode.Leaf b2C5), none, none)

/-- Evaluation theorem for C5 (a code bug): in the spec's two-body
scenario with theta = 0.5, the force the tree reports on the heavy body is
more than 1000 times the direct Newtonian force between the two bodies
(the opening-angle test always passes, so the query body is attracted to
an aggregate that contains itself). -/
theorem C5_two_body_force_mismatch :
    QuadTreeNode.insert 5 QuadTreeNode.Empty b1C5 bdC5 =
      some (QuadTreeNode.Leaf b1C5) ∧
    QuadTreeNode.insert 5 (QuadTreeNode.Leaf b1C5) b2C5 bdC5 = some tC5 ∧
    (tC5.calculate_force b1C5 (1 / 2)).2 = 0 ∧
    (tC5.calculate_force b1C5 (1 / 2)).1 >
      1000 * (6.67430e-11 * 5.97e24 * 7.35e22 / (3.844e8 * 3.844e8)) := by
  have hu : (0:ℝ) < 3.844e8 * 7.35e22 / (5.97e24 + 7.35e22) := by norm_num
  have h1 : tC5.calculate_force b1C5 (1 / 2) =
      calculate_gravity b1C5 (3.844e8 * 7.35e22 / (5.97e24 + 7.35e22), 0)
        (7.35e22 + 5.97e24) :=
    calculate_force_internal_point_mass _ _ _ _ (by norm_num)
  have hg : calculate_gravity b1C5 (3.844e8 * 7.35e22 / (5.97e24 + 7.35e22), 0)
      (7.35e22 + 5.97e24) =
      (6.67430e-11 * b1C5.mass * (7.35e22 + 5.97e24) /
          (3.844e8 * 7.35e22 / (5.97e24 + 7.35e22) *
            (3.844e8 * 7.35e22 / (5.97e24 + 7.35e22)) + 0 * 0) *
          (3.844e8 * 7.35e22 / (5.97e24 + 7.35e22)) /
          (3.844e8 * 7.35e22 / (5.97e24 + 7.35e22)),
        6.67430e-11 * b1C5.mass * (7.35e22 + 5.97e24) /
          (3.844e8 * 7.35e22 / (5.97e24 + 7.35e22) *
            (3.844e8 * 7.35e22 / (5.97e24 + 7.35e22)) + 0 * 0) * 0 /
          (3.844e8 * 7.35e22 / (5.97e24 + 7.35e22))) := by
    refine calculate_gravity_eval b1C5 _ _ _ 0 _ (by norm_num [b1C5])
      (by norm_num [b1C5]) ?_ (by norm_num)
    rw [show (3.844e8 * 7.35e22 / (5.97e24 + 7.35e22) *
        (3.844e8 * 7.35e22 / (5.97e24 + 7.35e22)) + 0 * 0 : ℝ) =
        3.844e8 * 7.35e22 / (5.97e24 + 7.35e22) *
          (3.844e8 * 7.35e22 / (5.97e24 + 7.35e22)) by ring,
      Real.sqrt_mul_self hu.le]
  refine ⟨rfl, ?_, ?_, ?_⟩
  · norm_num [QuadTreeNode.insert, firstContainingIdx, Boundary.contains,
      Boundary.subdivide, Boundary.center, quadrantAt, childAt, setChildAt,
      QuadTreeNode.calculate_center_of_mass, comContribution, bdC5, b1C5,
      b2C5, tC5,
      Prod.ext_iff]
  · rw [h1, hg]
    norm_num
  · rw [h1, hg]
    norm_num [b1C5]

/-! ### Children-array views of the node invariants -/

/-- The concatenated bodies of a children array, in array order. -/
def childrenBodies (c : Children α) : List (Body α) :=
  QuadTreeNode.bodiesInO c.1 ++ QuadTreeNode.bodiesInO c.2.1 ++
    QuadTreeNode.bodiesInO c.2.2.1 ++ QuadTreeNode.bodiesInO c.2.2.2

/-- All four children satisfy the mass invariant. -/
def childrenMassOK (c : Children α) : Prop :=
  QuadTreeNode.massOKO c.1 ∧ QuadTreeNode.massOKO c.2.1 ∧
    QuadTreeNode.massOKO c.2.2.1 ∧ QuadTreeNode.massOKO c.2.2.2

/-- All four children satisfy the center-of-mass invariant. -/
def childrenComOK (c : Children α) : Prop :=
  QuadTreeNode.comOKO c.1 ∧ QuadTreeNode.comOKO c.2.1 ∧
    QuadTreeNode.comOKO c.2.2.1 ∧ QuadTreeNode.comOKO c.2.2.2

/-- All four children are spatially well formed for their quadrants. -/
def childrenWf (bd : Boundary α) (c : Children α) : Prop :=
  QuadTreeNode.wfO (bd.subdivide).1 c.1 ∧
    QuadTreeNode.wfO (bd.subdivide).2.1 c.2.1 ∧
    QuadTreeNode.wfO (bd.subdivide).2.2.1 c.2.2.1 ∧
    QuadTreeNode.wfO (bd.subdivide).2.2.2 c.2.2.2

theorem bodiesIn_internal (com : α × α) (tm : α) (c : Children α) :
    (QuadTreeNode.Internal com tm c).bodiesIn = childrenBodies c := by
  obtain ⟨c0, c1, c2, c3⟩ := c
  simp [QuadTreeNode.bodiesIn, childrenBodies]

theorem massOK_internal (com : α × α) (tm : α) (c : Children α) :
    (QuadTreeNode.Internal com tm c).massOK ↔
      tm = massSum (childrenBodies c) ∧ childrenMassOK c := by
  obtain ⟨c0, c1, c2, c3⟩ := c
  simp [QuadTreeNode.massOK, childrenBodies, childrenMassOK, and_assoc]

theorem comOK_internal (com : α × α) (tm : α) (c : Children α) :
    (QuadTreeNode.Internal com tm c).comOK ↔
      com = (weightedX (childrenBodies c) / massSum (childrenBodies c),
        weightedY (childrenBodies c) / massSum (childrenBodies c)) ∧
      childrenComOK c := by
  obtain ⟨c0, c1, c2, c3⟩ := c
  simp [QuadTreeNode.comOK, childrenBodies, childrenComOK, and_assoc]

theorem wf_internal (com : α × α) (tm : α) (c : Children α) (bd : Boundary α) :
    (QuadTreeNode.Internal com tm c).wf bd ↔ childrenWf bd c := by
  obtain ⟨c0, c1, c2, c3⟩ := c
  simp [QuadTreeNode.wf, childrenWf, and_assoc]

/-! ### Mass and moment sums -/

theorem massSum_nil : massSum ([] : List (Body α)) = 0 := rfl

theorem massSum_cons (b : Body α) (l : List (Body α)) :
    massSum (b :: l) = b.mass + massSum l := by
  simp [massSum]

theorem massSum_append (l₁ l₂ : List (Body α)) :
    massSum (l₁ ++ l₂) = massSum l₁ + massSum l₂ := by
  simp [massSum]

theorem massSum_perm {l₁ l₂ : List (Body α)} (h : l₁.Perm l₂) :
    massSum l₁ = massSum l₂ :=
  (h.map Body.mass).sum_eq

theorem weightedX_nil : weightedX ([] : List (Body α)) = 0 := rfl

theorem weightedX_cons (b : Body α) (l : List (Body α)) :
    weightedX (b :: l) = b.position.1 * b.mass + weightedX l := by
  simp [weightedX]

theorem weightedX_append (l₁ l₂ : List (Body α)) :
    weightedX (l₁ ++ l₂) = weightedX l₁ + weightedX l₂ := by
  simp [weightedX]

theorem weightedX_perm {l₁ l₂ : List (Body α)} (h : l₁.Perm l₂) :
    weightedX l₁ = weightedX l₂ := by
  simp only [weightedX]
  exact List.Perm.sum_eq (h.map _)

theorem weightedY_nil : weightedY ([] : List (Body α)) = 0 := rfl

theorem weightedY_cons (b : Body α) (l : List (Body α)) :
    weightedY (b :: l) = b.position.2 * b.mass + weightedY l := by
  simp [weightedY]

theorem weightedY_append (l₁ l₂ : List (Body α)) :
    weightedY (l₁ ++ l₂) = weightedY l₁ + weightedY l₂ := by
  simp [weightedY]

theorem weightedY_perm {l₁ l₂ : List (Body α)} (h : l₁.Perm l₂) :
    weightedY l₁ = weightedY l₂ := by
  simp only [weightedY]
  exact List.Perm.sum_eq (h.map _)

theorem massSum_nonneg {l : List (Body α)} (h : ∀ b ∈ l, 0 ≤ b.mass) :
    0 ≤ massSum l := by
  induction l with
  | nil => simp [massSum_nil]
  | cons b t ih =>
    rw [massSum_cons]
    have hb := h b (List.mem_cons_self b t)
    have ht := ih fun x hx => h x (List.mem_cons_of_mem b hx)
    linarith

theorem massSum_pos {l : List (Body α)} (hne : l ≠ [])
    (hpos : ∀ b ∈ l, 0 < b.mass) : 0 < massSum l := by
  cases l with
  | nil => exact absurd rfl hne
  | cons b t =>
    rw [massSum_cons]
    have hb := hpos b (List.mem_cons_self b t)
    have ht : 0 ≤ massSum t :=
      massSum_nonneg fun x hx => (hpos x (List.mem_cons_of_mem b hx)).le
    linarith

theorem eq_nil_of_massSum_nonpos {l : List (Body α)}
    (hpos : ∀ b ∈ l, 0 < b.mass) (h : ¬ massSum l > 0) : l = [] := by
  by_contra hne
  exact h (massSum_pos hne hpos)

/-! ### Indexed access and update on the children array -/

theorem childAt_setChildAt_self (c : Children α) (i : Fin 4)
    (v : Option (QuadTreeNode α)) : childAt (setChildAt c i v) i = v := by
  obtain ⟨c0, c1, c2, c3⟩ := c
  fin_cases i <;> rfl

theorem childAt_setChildAt_ne (c : Children α) {i j : Fin 4} (h : i ≠ j)
    (v : Option (QuadTreeNode α)) :
    childAt (setChildAt c j v) i = childAt c i := by
  obtain ⟨c0, c1, c2, c3⟩ := c
  fin_cases i <;> fin_cases j <;> first | rfl | exact absurd rfl h

theorem childrenWf_setChildAt {bd : Boundary α} {c : Children α}
    (h : childrenWf bd c) {i : Fin 4} {v : Option (QuadTreeNode α)}
    (hv : QuadTreeNode.wfO (quadrantAt bd.subdivide i) v) :
    childrenWf bd (setChildAt c i v) := by
  obtain ⟨c0, c1, c2, c3⟩ := c
  obtain ⟨h0, h1, h2, h3⟩ := h
  fin_cases i
  · exact ⟨hv, h1, h2, h3⟩
  · exact ⟨h0, hv, h2, h3⟩
  · exact ⟨h0, h1, hv, h3⟩
  · exact ⟨h0, h1, h2, hv⟩

theorem childrenWf_childAt {bd : Boundary α} {c : Children α}
    (h : childrenWf bd c) (i : Fin 4) :
    QuadTreeNode.wfO (quadrantAt bd.subdivide i) (childAt c i) := by
  obtain ⟨c0, c1, c2, c3⟩ := c
  obtain ⟨h0, h1, h2, h3⟩ := h
  fin_cases i <;> assumption

theorem childrenMassOK_setChildAt {c : Children α} (h : childrenMassOK c)
    {i : Fin 4} {v : Option (QuadTreeNode α)} (hv : QuadTreeNode.massOKO v) :
    childrenMassOK (setChildAt c i v) := by
  obtain ⟨c0, c1, c2, c3⟩ := c
  obtain ⟨h0, h1, h2, h3⟩ := h
  fin_cases i
  · exact ⟨hv, h1, h2, h3⟩
  · exact ⟨h0, hv, h2, h3⟩
  · exact ⟨h0, h1, hv, h3⟩
  · exact ⟨h0, h1, h2, hv⟩

theorem childrenMassOK_childAt {c : Children α} (h : childrenMassOK c)
    (i : Fin 4) : QuadTreeNode.massOKO (childAt c i) := by
  obtain ⟨c0, c1, c2, c3⟩ := c
  obtain ⟨h0, h1, h2, h3⟩ := h
  fin_cases i <;> assumption

theorem childrenComOK_setChildAt {c : Children α} (h : childrenComOK c)
    {i : Fin 4} {v : Option (QuadTreeNode α)} (hv : QuadTreeNode.comOKO v) :
    childrenComOK (setChildAt c i v) := by
  obtain ⟨c0, c1, c2, c3⟩ := c
  obtain ⟨h0, h1, h2, h3⟩ := h
  fin_cases i
  · exact ⟨hv, h1, h2, h3⟩
  · exact ⟨h0, hv, h2, h3⟩
  · exact ⟨h0, h1, hv, h3⟩
  · exact ⟨h0, h1, h2, hv⟩

theorem childrenComOK_childAt {c : Children α} (h : childrenComOK c)
    (i : Fin 4) : QuadTreeNode.comOKO (childAt c i) := by
  obtain ⟨c0, c1, c2, c3⟩ := c
  obtain ⟨h0, h1, h2, h3⟩ := h
  fin_cases i <;> assumption

theorem mem_childrenBodies_of_mem_childAt {c : Children α} (i : Fin 4)
    {b : Body α} (h : b ∈ QuadTreeNode.bodiesInO (childAt c i)) :
    b ∈ childrenBodies c := by
  obtain ⟨c0, c1, c2, c3⟩ := c
  fin_cases i <;> simp [childrenBodies, childAt] at h ⊢ <;> tauto

/-- Replacing child `i` by a node whose bodies are a body consed onto the
old child's bodies permutes the children's bodies accordingly. -/
theorem childrenBodies_set_perm {c : Children α} {i : Fin 4}
    {v : Option (QuadTreeNode α)} {b : Body α}
    (h : (QuadTreeNode.bodiesInO v).Perm
      (b :: QuadTreeNode.bodiesInO (childAt c i))) :
    (childrenBodies (setChildAt c i v)).Perm (b :: childrenBodies c) := by
  obtain ⟨c0, c1, c2, c3⟩ := c
  fin_cases i <;>
    simp only [childAt, setChildAt, childrenBodies] at h ⊢
  · exact ((h.append_right _).append_right _).append_right _
  · exact (((List.Perm.append_left _ h).trans
      List.perm_middle).append_right _).append_right _
  · exact ((List.Perm.append_left _ h).trans List.perm_middle).append_right _
  · exact (List.Perm.append_left _ h).trans List.perm_middle

/-! ### Option-child conversions -/

theorem bodiesIn_getD (o : Option (QuadTreeNode α)) :
    (o.getD QuadTreeNode.Empty).bodiesIn = QuadTreeNode.bodiesInO o := by
  cases o <;> simp [QuadTreeNode.bodiesIn, QuadTreeNode.bodiesInO]

theorem wf_getD {bd : Boundary α} {o : Option (QuadTreeNode α)}
    (h : QuadTreeNode.wfO bd o) : (o.getD QuadTreeNode.Empty).wf bd := by
  cases o with
  | none => simp [QuadTreeNode.wf]
  | some t => exact h

theorem massOK_getD {o : Option (QuadTreeNode α)}
    (h : QuadTreeNode.massOKO o) : (o.getD QuadTreeNode.Empty).massOK := by
  cases o with
  | none => simp [QuadTreeNode.massOK]
  | some t => exact h

theorem comOK_getD {o : Option (QuadTreeNode α)}
    (h : QuadTreeNode.comOKO o) : (o.getD QuadTreeNode.Empty).comOK := by
  cases o with
  | none => simp [QuadTreeNode.comOK]
  | some t => exact h

/-- Under the invariants with positive masses, folding a child into the
accumulator adds exactly the child's subtree mass and moments. -/
theorem comContribution_eq (acc : α × α × α) (o : Option (QuadTreeNode α))
    (hm : QuadTreeNode.massOKO o) (hc : QuadTreeNode.comOKO o)
    (hpos : ∀ b ∈ QuadTreeNode.bodiesInO o, 0 < b.mass) :
    comContribution acc o =
      (acc.1 + massSum (QuadTreeNode.bodiesInO o),
       acc.2.1 + weightedX (QuadTreeNode.bodiesInO o),
       acc.2.2 + weightedY (QuadTreeNode.bodiesInO o)) := by
  match o with
  | none =>
      simp [comContribution, QuadTreeNode.bodiesInO, massSum_nil,
        weightedX_nil, weightedY_nil]
  | some QuadTreeNode.Empty =>
      simp [comContribution, QuadTreeNode.bodiesInO, QuadTreeNode.bodiesIn,
        massSum_nil, weightedX_nil, weightedY_nil]
  | some (QuadTreeNode.Leaf b) =>
      simp [comContribution, QuadTreeNode.bodiesInO, QuadTreeNode.bodiesIn,
        massSum_cons, weightedX_cons, weightedY_cons, massSum_nil,
        weightedX_nil, weightedY_nil]
  | some (QuadTreeNode.Internal com tm c) =>
      simp only [QuadTreeNode.massOKO] at hm
      simp only [QuadTreeNode.comOKO] at hc
      rw [massOK_internal] at hm
      rw [comOK_internal] at hc
      simp only [QuadTreeNode.bodiesInO, bodiesIn_internal] at hpos ⊢
      obtain ⟨htm, -⟩ := hm
      obtain ⟨hcom, -⟩ := hc
      subst htm
      rw [hcom]
      simp only [comContribution]
      by_cases hne : childrenBodies c = []
      · simp [hne, massSum_nil, weightedX_nil, weightedY_nil]
      · have hS : 0 < massSum (childrenBodies c) := massSum_pos hne hpos
        simp [div_mul_cancel₀ _ hS.ne']

/-- Under the invariants with positive masses,
`calculate_center_of_mass` computes the mass-weighted average position of
all bodies beneath the children array. -/
theorem calculate_center_of_mass_eq (c : Children α)
    (hm : childrenMassOK c) (hc : childrenComOK c)
    (hpos : ∀ b ∈ childrenBodies c, 0 < b.mass) :
    QuadTreeNode.calculate_center_of_mass c =
      (weightedX (childrenBodies c) / massSum (childrenBodies c),
       weightedY (childrenBodies c) / massSum (childrenBodies c)) := by
  obtain ⟨c0, c1, c2, c3⟩ := c
  obtain ⟨hm0, hm1, hm2, hm3⟩ := hm
  obtain ⟨hc0, hc1, hc2, hc3⟩ := hc
  have hp0 : ∀ b ∈ QuadTreeNode.bodiesInO c0, 0 < b.mass := fun b hb =>
    hpos b (by simp only [childrenBodies, List.mem_append]; tauto)
  have hp1 : ∀ b ∈ QuadTreeNode.bodiesInO c1, 0 < b.mass := fun b hb =>
    hpos b (by simp only [childrenBodies, List.mem_append]; tauto)
  have hp2 : ∀ b ∈ QuadTreeNode.bodiesInO c2, 0 < b.mass := fun b hb =>
    hpos b (by simp only [childrenBodies, List.mem_append]; tauto)
  have hp3 : ∀ b ∈ QuadTreeNode.bodiesInO c3, 0 < b.mass := fun b hb =>
    hpos b (by simp only [childrenBodies, List.mem_append]; tauto)
  simp only [QuadTreeNode.calculate_center_of_mass]
  rw [comContribution_eq _ _ hm0 hc0 hp0, comContribution_eq _ _ hm1 hc1 hp1,
    comContribution_eq _ _ hm2 hc2 hp2, comContribution_eq _ _ hm3 hc3 hp3]
  simp only [childrenBodies, massSum_append, weightedX_append,
    weightedY_append]
  split_ifs with hS
  · simp only [Prod.mk.injEq]
    constructor <;> ring_nf
  · have hSsum : (0 : α) + massSum (QuadTreeNode.bodiesInO c0) +
        massSum (QuadTreeNode.bodiesInO c1) +
        massSum (QuadTreeNode.bodiesInO c2) +
        massSum (QuadTreeNode.bodiesInO c3) =
        massSum (QuadTreeNode.bodiesInO c0 ++ QuadTreeNode.bodiesInO c1 ++
          QuadTreeNode.bodiesInO c2 ++ QuadTreeNode.bodiesInO c3) := by
      rw [massSum_append, massSum_append, massSum_append]
      ring
    rw [hSsum] at hS
    have hnil := eq_nil_of_massSum_nonpos hpos hS
    simp only [childrenBodies, List.append_eq_nil] at hnil
    obtain ⟨⟨⟨h0, h1⟩, h2⟩, h3⟩ := hnil
    simp [h0, h1, h2, h3, massSum_nil, weightedX_nil, weightedY_nil]

/-! ### Small facts about fresh children arrays -/

theorem childAt_none4 (i : Fin 4) :
    childAt ((none, none, none, none) : Children α) i = none := by
  fin_cases i <;> rfl

theorem childrenWf_none4 (bd : Boundary α) :
    childrenWf bd ((none, none, none, none) : Children α) := by
  refine ⟨?_, ?_, ?_, ?_⟩ <;> simp [QuadTreeNode.wfO]

theorem childrenMassOK_none4 :
    childrenMassOK ((none, none, none, none) : Children α) := by
  refine ⟨?_, ?_, ?_, ?_⟩ <;> simp [QuadTreeNode.massOKO]

theorem childrenComOK_none4 :
    childrenComOK ((none, none, none, none) : Children α) := by
  refine ⟨?_, ?_, ?_, ?_⟩ <;> simp [QuadTreeNode.comOKO]

theorem childrenBodies_single (j : Fin 4) (v : Option (QuadTreeNode α)) :
    childrenBodies (setChildAt (none, none, none, none) j v) =
      QuadTreeNode.bodiesInO v := by
  fin_cases j <;>
    simp [childrenBodies, setChildAt, QuadTreeNode.bodiesInO]

/-! ### Insertion preserves well-formedness, the stored bodies, and the
mass invariant -/

/-- One successful insert within the boundary, with a position fresh for
the subtree, keeps the tree well formed, adds exactly the new body to the
stored bodies, and preserves the mass invariant. -/
theorem insert_step : ∀ (fuel : Nat) (t : QuadTreeNode α) (body : Body α)
    (bd : Boundary α) (t' : QuadTreeNode α),
    QuadTreeNode.insert fuel t body bd = some t' →
    t.wf bd → bd.contains body.position.1 body.position.2 →
    (∀ b ∈ t.bodiesIn, b.position ≠ body.position) →
    t'.wf bd ∧ (t'.bodiesIn).Perm (body :: t.bodiesIn) ∧
      (t.massOK → t'.massOK) := by
  intro fuel
  induction fuel with
  | zero =>
    intro t body bd t' h
    exact absurd h (by simp [QuadTreeNode.insert])
  | succ fuel ih =>
    intro t body bd t' h hwf hin hfresh
    cases t with
    | Empty =>
      simp only [QuadTreeNode.insert, Option.some.injEq] at h
      subst h
      refine ⟨by simpa [QuadTreeNode.wf] using hin, ?_, fun _ => by
        simp [QuadTreeNode.massOK]⟩
      simp [QuadTreeNode.bodiesIn]
    | Leaf ex =>
      have hne : ex.position ≠ body.position :=
        hfresh ex (by simp [QuadTreeNode.bodiesIn])
      have hexc : bd.contains ex.position.1 ex.position.2 := by
        simpa [QuadTreeNode.wf] using hwf
      obtain ⟨j, hj⟩ := firstContainingIdx_isSome_of_contains hexc
      obtain ⟨i, hi⟩ := firstContainingIdx_isSome_of_contains hin
      have hqj := firstContainingIdx_some_contains hj
      have hqi := firstContainingIdx_some_contains hi
      simp only [QuadTreeNode.insert] at h
      rw [if_neg hne] at h
      simp only [hj, hi] at h
      by_cases hij : i = j
      · subst hij
        simp only [childAt_setChildAt_self] at h
        rcases hrec : QuadTreeNode.insert fuel (QuadTreeNode.Leaf ex) body
            (quadrantAt bd.subdivide i) with _ | ch'
        · rw [hrec] at h
          simp at h
        · rw [hrec] at h
          simp only [Option.map_some', Option.some.injEq] at h
          subst h
          obtain ⟨hwf', hperm', hmass'⟩ := ih (QuadTreeNode.Leaf ex) body
            (quadrantAt bd.subdivide i) ch' hrec
            (by simpa [QuadTreeNode.wf] using hqj) hqi
            (by intro b hb
                simp [QuadTreeNode.bodiesIn] at hb
                subst hb
                exact hne)
          have hpermL : (QuadTreeNode.bodiesInO (some ch')).Perm
              (body :: QuadTreeNode.bodiesInO (childAt
                (setChildAt (none, none, none, none) i
                  (some (QuadTreeNode.Leaf ex))) i)) := by
            rw [childAt_setChildAt_self]
            simpa [QuadTreeNode.bodiesInO, QuadTreeNode.bodiesIn] using hperm'
          have hperm2 := childrenBodies_set_perm hpermL
          rw [childrenBodies_single] at hperm2
          refine ⟨?_, ?_, ?_⟩
          · rw [wf_internal]
            exact childrenWf_setChildAt
              (childrenWf_setChildAt (childrenWf_none4 bd)
                (by simpa [QuadTreeNode.wfO, QuadTreeNode.wf] using hqj))
              (by simpa [QuadTreeNode.wfO] using hwf')
          · rw [bodiesIn_internal]
            simpa [QuadTreeNode.bodiesInO, QuadTreeNode.bodiesIn] using hperm2
          · intro _
            rw [massOK_internal]
            constructor
            · rw [massSum_perm hperm2]
              simp [massSum_cons, QuadTreeNode.bodiesInO,
                QuadTreeNode.bodiesIn, massSum_nil]
            · have hm2 := hmass' (by simp [QuadTreeNode.massOK])
              exact childrenMassOK_setChildAt
                (childrenMassOK_setChildAt childrenMassOK_none4
                  (by simp [QuadTreeNode.massOKO, QuadTreeNode.massOK]))
                (by simpa [QuadTreeNode.massOKO] using hm2)
      · simp only [childAt_setChildAt_ne _ hij, childAt_none4] at h
        simp only [Option.map_some', Option.some.injEq] at h
        subst h
        have hpermL : (QuadTreeNode.bodiesInO
            (some (QuadTreeNode.Leaf body))).Perm
            (body :: QuadTreeNode.bodiesInO (childAt
              (setChildAt (none, none, none, none) j
                (some (QuadTreeNode.Leaf ex))) i)) := by
          rw [childAt_setChildAt_ne _ hij, childAt_none4]
          simp [QuadTreeNode.bodiesInO, QuadTreeNode.bodiesIn]
        have hperm2 := childrenBodies_set_perm hpermL
        rw [childrenBodies_single] at hperm2
        refine ⟨?_, ?_, ?_⟩
        · rw [wf_internal]
          exact childrenWf_setChildAt
            (childrenWf_setChildAt (childrenWf_none4 bd)
              (by simpa [QuadTreeNode.wfO, QuadTreeNode.wf] using hqj))
            (by simpa [QuadTreeNode.wfO, QuadTreeNode.wf] using hqi)
        · rw [bodiesIn_internal]
          simpa [QuadTreeNode.bodiesInO, QuadTreeNode.bodiesIn] using hperm2
        · intro _
          rw [massOK_internal]
          constructor
          · rw [massSum_perm hperm2]
            simp [massSum_cons, QuadTreeNode.bodiesInO,
              QuadTreeNode.bodiesIn, massSum_nil]
          · exact childrenMassOK_setChildAt
              (childrenMassOK_setChildAt childrenMassOK_none4
                (by simp [QuadTreeNode.massOKO, QuadTreeNode.massOK]))
              (by simp [QuadTreeNode.massOKO, QuadTreeNode.massOK])
    | Internal com tm cs =>
      have hwfC : childrenWf bd cs := (wf_internal com tm cs bd).1 hwf
      obtain ⟨i, hi⟩ := firstContainingIdx_isSome_of_contains hin
      have hqi := firstContainingIdx_some_contains hi
      simp only [QuadTreeNode.insert] at h
      simp only [hi] at h
      rcases hrec : QuadTreeNode.insert fuel ((childAt cs i).getD
          QuadTreeNode.Empty) body (quadrantAt bd.subdivide i) with _ | ch'
      · rw [hrec] at h
        simp at h
      · rw [hrec] at h
        simp only [Option.map_some', Option.some.injEq] at h
        subst h
        obtain ⟨hwf', hperm', hmass'⟩ := ih _ body
          (quadrantAt bd.subdivide i) ch' hrec
          (wf_getD (childrenWf_childAt hwfC i)) hqi
          (by intro b hb
              rw [bodiesIn_getD] at hb
              exact hfresh b (by
                rw [bodiesIn_internal]
                exact mem_childrenBodies_of_mem_childAt i hb))
        have hpermL : (QuadTreeNode.bodiesInO (some ch')).Perm
            (body :: QuadTreeNode.bodiesInO (childAt cs i)) := by
          rw [← bodiesIn_getD (childAt cs i)]
          simpa [QuadTreeNode.bodiesInO] using hperm'
        have hperm2 := childrenBodies_set_perm hpermL
        refine ⟨?_, ?_, ?_⟩
        · rw [wf_internal]
          exact childrenWf_setChildAt hwfC
            (by simpa [QuadTreeNode.wfO] using hwf')
        · rw [bodiesIn_internal, bodiesIn_internal]
          exact hperm2
        · intro hmassT
          rw [massOK_internal] at hmassT
          obtain ⟨htm, hcm⟩ := hmassT
          rw [massOK_internal]
          constructor
          · rw [massSum_perm hperm2, massSum_cons, ← htm]
            ring
          · have hm2 := hmass' (massOK_getD (childrenMassOK_childAt hcm i))
            exact childrenMassOK_setChildAt hcm
              (by simpa [QuadTreeNode.massOKO] using hm2)

/-- An Internal node whose aggregates come from `calculate_center_of_mass`
over invariant-satisfying children with positive masses satisfies the
center-of-mass invariant. -/
theorem comOK_build (cs : Children α) (tm : α)
    (hm : childrenMassOK cs) (hc : childrenComOK cs)
    (hpos : ∀ b ∈ childrenBodies cs, 0 < b.mass) :
    (QuadTreeNode.Internal (QuadTreeNode.calculate_center_of_mass cs) tm
      cs).comOK := by
  rw [comOK_internal]
  exact ⟨calculate_center_of_mass_eq cs hm hc hpos, hc⟩

/-- One successful insert within the boundary, with a fresh position and
positive masses, preserves the center-of-mass invariant. -/
theorem insert_com : ∀ (fuel : Nat) (t : QuadTreeNode α) (body : Body α)
    (bd : Boundary α) (t' : QuadTreeNode α),
    QuadTreeNode.insert fuel t body bd = some t' →
    t.wf bd → bd.contains body.position.1 body.position.2 →
    (∀ b ∈ t.bodiesIn, b.position ≠ body.position) →
    (∀ b ∈ t.bodiesIn, 0 < b.mass) → 0 < body.mass →
    t.massOK → t.comOK → t'.comOK := by
  intro fuel
  induction fuel with
  | zero =>
    intro t body bd t' h
    exact absurd h (by simp [QuadTreeNode.insert])
  | succ fuel ih =>
    intro t body bd t' h hwf hin hfresh hpos hbody hmassT hcomT
    cases t with
    | Empty =>
      simp only [QuadTreeNode.insert, Option.some.injEq] at h
      subst h
      simp [QuadTreeNode.comOK]
    | Leaf ex =>
      have hne : ex.position ≠ body.position :=
        hfresh ex (by simp [QuadTreeNode.bodiesIn])
      have hexm : 0 < ex.mass := hpos ex (by simp [QuadTreeNode.bodiesIn])
      have hexc : bd.contains ex.position.1 ex.position.2 := by
        simpa [QuadTreeNode.wf] using hwf
      obtain ⟨j, hj⟩ := firstContainingIdx_isSome_of_contains hexc
      obtain ⟨i, hi⟩ := firstContainingIdx_isSome_of_contains hin
      have hqj := firstContainingIdx_some_contains hj
      have hqi := firstContainingIdx_some_contains hi
      simp only [QuadTreeNode.insert] at h
      rw [if_neg hne] at h
      simp only [hj, hi] at h
      by_cases hij : i = j
      · subst hij
        simp only [childAt_setChildAt_self] at h
        rcases hrec : QuadTreeNode.insert fuel (QuadTreeNode.Leaf ex) body
            (quadrantAt bd.subdivide i) with _ | ch'
        · rw [hrec] at h
          simp at h
        · rw [hrec] at h
          simp only [Option.map_some', Option.some.injEq] at h
          subst h
          have hfreshL : ∀ b ∈ (QuadTreeNode.Leaf ex).bodiesIn,
              b.position ≠ body.position := by
            intro b hb
            simp [QuadTreeNode.bodiesIn] at hb
            subst hb
            exact hne
          have hwfL : (QuadTreeNode.Leaf ex).wf (quadrantAt bd.subdivide i) :=
            by simpa [QuadTreeNode.wf] using hqj
          obtain ⟨hwf', hperm', hmass'⟩ := insert_step fuel
            (QuadTreeNode.Leaf ex) body (quadrantAt bd.subdivide i) ch' hrec
            hwfL hqi hfreshL
          have hcom' := ih (QuadTreeNode.Leaf ex) body
            (quadrantAt bd.subdivide i) ch' hrec hwfL hqi hfreshL
            (by intro b hb
                simp [QuadTreeNode.bodiesIn] at hb
                subst hb
                exact hexm)
            hbody (by simp [QuadTreeNode.massOK]) (by simp [QuadTreeNode.comOK])
          have hpermL : (QuadTreeNode.bodiesInO (some ch')).Perm
              (body :: QuadTreeNode.bodiesInO (childAt
                (setChildAt (none, none, none, none) i
                  (some (QuadTreeNode.Leaf ex))) i)) := by
            rw [childAt_setChildAt_self]
            simpa [QuadTreeNode.bodiesInO, QuadTreeNode.bodiesIn] using hperm'
          have hperm2 := childrenBodies_set_perm hpermL
          rw [childrenBodies_single] at hperm2
          have hm2 := hmass' (by simp [QuadTreeNode.massOK])
          refine comOK_build _ _ ?_ ?_ ?_
          · exact childrenMassOK_setChildAt
              (childrenMassOK_setChildAt childrenMassOK_none4
                (by simp [QuadTreeNode.massOKO, QuadTreeNode.massOK]))
              (by simpa [QuadTreeNode.massOKO] using hm2)
          · exact childrenComOK_setChildAt
              (childrenComOK_setChildAt childrenComOK_none4
                (by simp [QuadTreeNode.comOKO, QuadTreeNode.comOK]))
              (by simpa [QuadTreeNode.comOKO] using hcom')
          · intro b hb
            have hmem := hperm2.subset hb
            rcases List.mem_cons.1 hmem with rfl | hb'
            · exact hbody
            · simp [QuadTreeNode.bodiesInO, QuadTreeNode.bodiesIn] at hb'
              subst hb'
              exact hexm
      · simp only [childAt_setChildAt_ne _ hij, childAt_none4] at h
        simp only [Option.map_some', Option.some.injEq] at h
        subst h
        have hpermL : (QuadTreeNode.bodiesInO
            (some (QuadTreeNode.Leaf body))).Perm
            (body :: QuadTreeNode.bodiesInO (childAt
              (setChildAt (none, none, none, none) j
                (some (QuadTreeNode.Leaf ex))) i)) := by
          rw [childAt_setChildAt_ne _ hij, childAt_none4]
          simp [QuadTreeNode.bodiesInO, QuadTreeNode.bodiesIn]
        have hperm2 := childrenBodies_set_perm hpermL
        rw [childrenBodies_single] at hperm2
        refine comOK_build _ _ ?_ ?_ ?_
        · exact childrenMassOK_setChildAt
            (childrenMassOK_setChildAt childrenMassOK_none4
              (by simp [QuadTreeNode.massOKO, QuadTreeNode.massOK]))
            (by simp [QuadTreeNode.massOKO, QuadTreeNode.massOK])
        · exact childrenComOK_setChildAt
            (childrenComOK_setChildAt childrenComOK_none4
              (by simp [QuadTreeNode.comOKO, QuadTreeNode.comOK]))
            (by simp [QuadTreeNode.comOKO, QuadTreeNode.comOK])
        · intro b hb
          have hmem := hperm2.subset hb
          rcases List.mem_cons.1 hmem with rfl | hb'
          · exact hbody
          · simp [QuadTreeNode.bodiesInO, QuadTreeNode.bodiesIn] at hb'
            subst hb'
            exact hexm
    | Internal com tm cs =>
      have hwfC : childrenWf bd cs := (wf_internal com tm cs bd).1 hwf
      rw [massOK_internal] at hmassT
      obtain ⟨htm, hcm⟩ := hmassT
      rw [comOK_internal] at hcomT
      obtain ⟨-, hcc⟩ := hcomT
      obtain ⟨i, hi⟩ := firstContainingIdx_isSome_of_contains hin
      have hqi := firstContainingIdx_some_contains hi
      simp only [QuadTreeNode.insert] at h
      simp only [hi] at h
      rcases hrec : QuadTreeNode.insert fuel ((childAt cs i).getD
          QuadTreeNode.Empty) body (quadrantAt bd.subdivide i) with _ | ch'
      · rw [hrec] at h
        simp at h
      · rw [hrec] at h
        simp only [Option.map_some', Option.some.injEq] at h
        subst h
        have hwfD := wf_getD (childrenWf_childAt hwfC i)
        have hfreshD : ∀ b ∈ ((childAt cs i).getD
            QuadTreeNode.Empty).bodiesIn, b.position ≠ body.position := by
          intro b hb
          rw [bodiesIn_getD] at hb
          exact hfresh b (by
            rw [bodiesIn_internal]
            exact mem_childrenBodies_of_mem_childAt i hb)
        have hposD : ∀ b ∈ ((childAt cs i).getD
            QuadTreeNode.Empty).bodiesIn, 0 < b.mass := by
          intro b hb
          rw [bodiesIn_getD] at hb
          exact hpos b (by
            rw [bodiesIn_internal]
            exact mem_childrenBodies_of_mem_childAt i hb)
        obtain ⟨hwf', hperm', hmass'⟩ := insert_step fuel _ body
          (quadrantAt bd.subdivide i) ch' hrec hwfD hqi hfreshD
        have hcom' := ih _ body (quadrantAt bd.subdivide i) ch' hrec
          hwfD hqi hfreshD hposD hbody
          (massOK_getD (childrenMassOK_childAt hcm i))
          (comOK_getD (childrenComOK_childAt hcc i))
        have hpermL : (QuadTreeNode.bodiesInO (some ch')).Perm
            (body :: QuadTreeNode.bodiesInO (childAt cs i)) := by
          rw [← bodiesIn_getD (childAt cs i)]
          simpa [QuadTreeNode.bodiesInO] using hperm'
        have hperm2 := childrenBodies_set_perm hpermL
        have hm2 := hmass' (massOK_getD (childrenMassOK_childAt hcm i))
        refine comOK_build _ _ ?_ ?_ ?_
        · exact childrenMassOK_setChildAt hcm
            (by simpa [QuadTreeNode.massOKO] using hm2)
        · exact childrenComOK_setChildAt hcc
            (by simpa [QuadTreeNode.comOKO] using hcom')
        · intro b hb
          have hmem := hperm2.subset hb
          rcases List.mem_cons.1 hmem with rfl | hb'
          · exact hbody
          · exact hpos b (by rw [bodiesIn_internal]; exact hb')

theorem totalMass_eq_massSum {t : QuadTreeNode α} (h : t.massOK) :
    t.totalMass = massSum t.bodiesIn := by
  cases t with
  | Empty =>
    simp [QuadTreeNode.totalMass, QuadTreeNode.bodiesIn, massSum_nil]
  | Leaf b =>
    simp [QuadTreeNode.totalMass, QuadTreeNode.bodiesIn, massSum_cons,
      massSum_nil]
  | Internal com tm c =>
    rw [massOK_internal] at h
    rw [bodiesIn_internal]
    simpa [QuadTreeNode.totalMass] using h.1

/-- The driver's insertion loop preserves well-formedness and the mass
invariant, and stores exactly the inserted bodies, provided every inserted
body lies inside the fixed boundary and all positions are fresh and
pairwise distinct. -/
theorem insertList_inv (fuel : Nat) :
    ∀ (bodies : List (Body α)) (qt qt' : QuadTree α),
    QuadTree.insertList fuel qt bodies = some qt' →
    qt.root.wf qt.boundary →
    (∀ b ∈ bodies, qt.boundary.contains b.position.1 b.position.2) →
    bodies.Pairwise (fun a b => a.position ≠ b.position) →
    (∀ b ∈ bodies, ∀ b' ∈ qt.root.bodiesIn, b'.position ≠ b.position) →
    qt'.boundary = qt.boundary ∧ qt'.root.wf qt.boundary ∧
      (qt'.root.bodiesIn).Perm (bodies ++ qt.root.bodiesIn) ∧
      (qt.root.massOK → qt'.root.massOK) := by
  intro bodies
  induction bodies with
  | nil =>
    intro qt qt' h hwf hin hpw hfresh
    simp only [QuadTree.insertList, Option.some.injEq] at h
    subst h
    exact ⟨rfl, hwf, by simpa using List.Perm.refl qt.root.bodiesIn, id⟩
  | cons b rest ihr =>
    intro qt qt' h hwf hin hpw hfresh
    simp only [QuadTree.insertList] at h
    rcases hroot : QuadTreeNode.insert fuel qt.root b qt.boundary with _ | r
    · rw [show QuadTree.insert fuel qt b = none by
        simp [QuadTree.insert, hroot]] at h
      simp at h
    · rw [show QuadTree.insert fuel qt b = some ⟨r, qt.boundary⟩ by
        simp [QuadTree.insert, hroot]] at h
      obtain ⟨hwfr, hpermr, hmassr⟩ := insert_step fuel qt.root b qt.boundary
        r hroot hwf (hin b (List.mem_cons_self b rest))
        (fun b' hb' => hfresh b (List.mem_cons_self b rest) b' hb')
      have hpwb : ∀ x ∈ rest, b.position ≠ x.position :=
        (List.pairwise_cons.1 hpw).1
      obtain ⟨hbd, hwf', hperm', hmass'⟩ := ihr ⟨r, qt.boundary⟩ qt' h hwfr
        (fun x hx => hin x (List.mem_cons_of_mem b hx))
        (List.pairwise_cons.1 hpw).2
        (by intro x hx b' hb'
            have hb2 := hpermr.subset hb'
            rcases List.mem_cons.1 hb2 with rfl | hb3
            · exact hpwb x hx
            · exact hfresh x (List.mem_cons_of_mem b hx) b' hb3)
      refine ⟨hbd, hwf', ?_, fun hm => hmass' (hmassr hm)⟩
      refine hperm'.trans ?_
      refine ((List.Perm.append_left rest hpermr).trans List.perm_middle).trans ?_
      exact List.Perm.refl _

/-- The driver's insertion loop preserves the center-of-mass invariant
when, additionally, all masses are positive. -/
theorem insertList_com (fuel : Nat) :
    ∀ (bodies : List (Body α)) (qt qt' : QuadTree α),
    QuadTree.insertList fuel qt bodies = some qt' →
    qt.root.wf qt.boundary →
    (∀ b ∈ bodies, qt.boundary.contains b.position.1 b.position.2) →
    bodies.Pairwise (fun a b => a.position ≠ b.position) →
    (∀ b ∈ bodies, ∀ b' ∈ qt.root.bodiesIn, b'.position ≠ b.position) →
    (∀ b ∈ bodies, 0 < b.mass) → (∀ b ∈ qt.root.bodiesIn, 0 < b.mass) →
    qt.root.massOK → qt.root.comOK →
    qt'.root.comOK := by
  intro bodies
  induction bodies with
  | nil =>
    intro qt qt' h hwf hin hpw hfresh hposL hposT hmass hcom
    simp only [QuadTree.insertList, Option.some.injEq] at h
    subst h
    exact hcom
  | cons b rest ihr =>
    intro qt qt' h hwf hin hpw hfresh hposL hposT hmass hcom
    simp only [QuadTree.insertList] at h
    rcases hroot : QuadTreeNode.insert fuel qt.root b qt.boundary with _ | r
    · rw [show QuadTree.insert fuel qt b = none by
        simp [QuadTree.insert, hroot]] at h
      simp at h
    · rw [show QuadTree.insert fuel qt b = some ⟨r, qt.boundary⟩ by
        simp [QuadTree.insert, hroot]] at h
      have hinb := hin b (List.mem_cons_self b rest)
      have hfreshb : ∀ b' ∈ qt.root.bodiesIn, b'.position ≠ b.position :=
        fun b' hb' => hfresh b (List.mem_cons_self b rest) b' hb'
      have hposb := hposL b (List.mem_cons_self b rest)
      obtain ⟨hwfr, hpermr, hmassr⟩ := insert_step fuel qt.root b qt.boundary
        r hroot hwf hinb hfreshb
      have hcomr := insert_com fuel qt.root b qt.boundary r hroot hwf hinb
        hfreshb hposT hposb hmass hcom
      have hpwb : ∀ x ∈ rest, b.position ≠ x.position :=
        (List.pairwise_cons.1 hpw).1
      exact ihr ⟨r, qt.boundary⟩ qt' h hwfr
        (fun x hx => hin x (List.mem_cons_of_mem b hx))
        (List.pairwise_cons.1 hpw).2
        (by intro x hx b' hb'
            rcases List.mem_cons.1 (hpermr.subset hb') with rfl | hb3
            · exact hpwb x hx
            · exact hfresh x (List.mem_cons_of_mem b hx) b' hb3)
        (fun x hx => hposL x (List.mem_cons_of_mem b hx))
        (by intro b' hb'
            rcases List.mem_cons.1 (hpermr.subset hb') with rfl | hb3
            · exact hposb
            · exact hposT b' hb3)
        (hmassr hmass) hcomr

/-- Claim C1, amended with pairwise-distinct positions (the coincident
position no-op of the source drops a body while ancestors still count its
mass, so the claim as stated fails for repeated positions): for every
finite sequence of bodies at pairwise distinct positions inserted in order
into a freshly constructed QuadTree over a boundary containing all their
positions, the root's aggregate mass is the sum of all inserted masses,
and every node's aggregate mass is the sum of the masses of the bodies
beneath it. -/
theorem C1_mass_conservation (fuel : Nat) (bd : Boundary α)
    (bodies : List (Body α)) (qt' : QuadTree α)
    (hdistinct : bodies.Pairwise (fun a b => a.position ≠ b.position))
    (hin : ∀ b ∈ bodies, bd.contains b.position.1 b.position.2)
    (h : QuadTree.insertList fuel (QuadTree.new bd) bodies = some qt') :
    qt'.root.totalMass = massSum bodies ∧ qt'.root.massOK := by
  obtain ⟨hbd, hwf, hperm, hmass⟩ := insertList_inv fuel bodies
    (QuadTree.new bd) qt' h (by simp [QuadTree.new, QuadTreeNode.wf]) hin
    hdistinct (by simp [QuadTree.new, QuadTreeNode.bodiesIn])
  have hm := hmass (by simp [QuadTree.new, QuadTreeNode.massOK])
  refine ⟨?_, hm⟩
  rw [totalMass_eq_massSum hm, massSum_perm hperm]
  simp [QuadTree.new, QuadTreeNode.bodiesIn, massSum_append, massSum_nil]

/-- Counterexample to C1 as stated: two bodies at the same in-boundary
position.  The second insert is a silent no-op, so the root's aggregate
mass is 1 while the inserted masses sum to 2. -/
theorem C1_mass_conservation_counterexample :
    (∀ b ∈ [mkBody 1 1 1, mkBody 1 1 1],
      bdQ.contains b.position.1 b.position.2) ∧
    QuadTree.insertList 5 (QuadTree.new bdQ) [mkBody 1 1 1, mkBody 1 1 1] =
      some ⟨QuadTreeNode.Leaf (mkBody 1 1 1), bdQ⟩ ∧
    (QuadTreeNode.Leaf (mkBody 1 1 1) : QuadTreeNode ℚ).totalMass ≠
      massSum [mkBody 1 1 1, mkBody 1 1 1] := by
  refine ⟨?_, ?_, ?_⟩
  · intro b hb
    simp only [List.mem_cons, List.mem_singleton, List.not_mem_nil,
      or_false] at hb
    rcases hb with rfl | rfl <;>
      norm_num [bdQ, mkBody, Boundary.contains]
  · norm_num [QuadTree.insertList, QuadTree.insert, QuadTree.new,
      QuadTreeNode.insert, mkBody]
  · norm_num [QuadTreeNode.totalMass, massSum, mkBody]

/-- The two distinct-position rational bodies used by the C1 and C3
witnesses. -/
def twoBodiesQ : List (Body ℚ) := [mkBody 1 1 1, mkBody 3 3 1]

/-- The tree the source builds from `twoBodiesQ` on `[0,4] × [0,4]`. -/
def twoBodyTreeQ : QuadTreeNode ℚ := QuadTreeNode.Internal (2, 2) 2
  (some (QuadTreeNode.Leaf (mkBody 1 1 1)), none, none,
    some (QuadTreeNode.Leaf (mkBody 3 3 1)))

/-- Witness for C1 on two concrete distinct bodies. -/
theorem C1_mass_conservation_witness :
    (twoBodiesQ.Pairwise (fun a b => a.position ≠ b.position)) ∧
    (∀ b ∈ twoBodiesQ, bdQ.contains b.position.1 b.position.2) ∧
    QuadTree.insertList 5 (QuadTree.new bdQ) twoBodiesQ =
      some ⟨twoBodyTreeQ, bdQ⟩ ∧
    ((⟨twoBodyTreeQ, bdQ⟩ : QuadTree ℚ).root.totalMass =
        massSum twoBodiesQ ∧
      (⟨twoBodyTreeQ, bdQ⟩ : QuadTree ℚ).root.massOK) := by
  have hpw : twoBodiesQ.Pairwise (fun a b => a.position ≠ b.position) := by
    norm_num [twoBodiesQ, mkBody, List.pairwise_cons, Prod.ext_iff]
  have hin : ∀ b ∈ twoBodiesQ, bdQ.contains b.position.1 b.position.2 := by
    intro b hb
    simp only [twoBodiesQ, List.mem_cons, List.mem_singleton,
      List.not_mem_nil, or_false] at hb
    rcases hb with rfl | rfl <;>
      norm_num [bdQ, mkBody, Boundary.contains]
  have hrun : QuadTree.insertList 5 (QuadTree.new bdQ) twoBodiesQ =
      some ⟨twoBodyTreeQ, bdQ⟩ := by
    norm_num [twoBodiesQ, twoBodyTreeQ, QuadTree.insertList, QuadTree.insert,
      QuadTree.new, QuadTreeNode.insert, firstContainingIdx,
      Boundary.contains, Boundary.subdivide, Boundary.center, quadrantAt,
      childAt, setChildAt, QuadTreeNode.calculate_center_of_mass,
      comContribution, bdQ, mkBody, Prod.ext_iff]
  exact ⟨hpw, hin, hrun,
    C1_mass_conservation 5 bdQ twoBodiesQ ⟨twoBodyTreeQ, bdQ⟩ hpw hin hrun⟩

/-- Claim C3, amended with pairwise-distinct positions and positive masses
(the data model requires positive masses; for repeated positions the
dropped duplicate still inflates an ancestor's cached mass, which then
corrupts the center of mass computed from the aggregates one level up):
after every insert sequence, every Internal node's center of mass is the
mass-weighted average position of the bodies in its subtree. -/
theorem C3_center_of_mass (fuel : Nat) (bd : Boundary α)
    (bodies : List (Body α)) (qt' : QuadTree α)
    (hdistinct : bodies.Pairwise (fun a b => a.position ≠ b.position))
    (hin : ∀ b ∈ bodies, bd.contains b.position.1 b.position.2)
    (hpos : ∀ b ∈ bodies, 0 < b.mass)
    (h : QuadTree.insertList fuel (QuadTree.new bd) bodies = some qt') :
    qt'.root.comOK :=
  insertList_com fuel bodies (QuadTree.new bd) qt' h
    (by simp [QuadTree.new, QuadTreeNode.wf]) hin hdistinct
    (by simp [QuadTree.new, QuadTreeNode.bodiesIn]) hpos
    (by simp [QuadTree.new, QuadTreeNode.bodiesIn])
    (by simp [QuadTree.new, QuadTreeNode.massOK])
    (by simp [QuadTree.new, QuadTreeNode.comOK])

/-- The duplicate-position insert sequence breaking C3 as stated. -/
def seqC3 : List (Body ℚ) :=
  [mkBody (1/2) (1/2) 1, mkBody (3/2) (3/2) 1, mkBody 3 3 1,
    mkBody (1/2) (1/2) 1]

/-- The tree the source builds from `seqC3`: the duplicate fourth body is
dropped by the leaf no-op, but both Internal nodes still add its mass, so
the root's center of mass `(3/2, 3/2)` is computed from an inflated child
aggregate. -/
def badTreeQ : QuadTreeNode ℚ := QuadTreeNode.Internal (3/2, 3/2) 4
  (some (QuadTreeNode.Internal (1, 1) 3
    (some (QuadTreeNode.Leaf (mkBody (1/2) (1/2) 1)), none, none,
      some (QuadTreeNode.Leaf (mkBody (3/2) (3/2) 1)))), none, none,
    some (QuadTreeNode.Leaf (mkBody 3 3 1)))

set_option maxHeartbeats 1600000 in
/-- Counterexample to C3 as stated: after the duplicate-position sequence
`seqC3` (all bodies in the boundary with positive masses), the root's
center of mass is `(3/2, 3/2)`, but the mass-weighted average position of
the three stored bodies is `(5/3, 5/3)`. -/
theorem C3_center_of_mass_counterexample :
    (∀ b ∈ seqC3, bdQ.contains b.position.1 b.position.2) ∧
    (∀ b ∈ seqC3, 0 < b.mass) ∧
    QuadTree.insertList 3 (QuadTree.new bdQ) seqC3 = some ⟨badTreeQ, bdQ⟩ ∧
    ¬ badTreeQ.comOK := by
  refine ⟨?_, ?_, ?_, ?_⟩
  · intro b hb
    simp only [seqC3, List.mem_cons, List.not_mem_nil, or_false] at hb
    rcases hb with rfl | rfl | rfl | rfl <;>
      norm_num [bdQ, mkBody, Boundary.contains]
  · intro b hb
    simp only [seqC3, List.mem_cons, List.not_mem_nil, or_false] at hb
    rcases hb with rfl | rfl | rfl | rfl <;> norm_num [mkBody]
  · norm_num [seqC3, badTreeQ, QuadTree.insertList, QuadTree.insert,
      QuadTree.new, QuadTreeNode.insert, firstContainingIdx,
      Boundary.contains, Boundary.subdivide, Boundary.center, quadrantAt,
      childAt, setChildAt, QuadTreeNode.calculate_center_of_mass,
      comContribution, bdQ, mkBody, Prod.ext_iff]
  · intro hc
    simp only [badTreeQ] at hc
    rw [comOK_internal] at hc
    have hclause := hc.1
    norm_num [childrenBodies, QuadTreeNode.bodiesInO, QuadTreeNode.bodiesIn,
      weightedX, weightedY, massSum, mkBody, Prod.ext_iff] at hclause

/-- Witness for C3 on two concrete distinct bodies of positive mass. -/
theorem C3_center_of_mass_witness :
    (twoBodiesQ.Pairwise (fun a b => a.position ≠ b.position)) ∧
    (∀ b ∈ twoBodiesQ, bdQ.contains b.position.1 b.position.2) ∧
    (∀ b ∈ twoBodiesQ, 0 < b.mass) ∧
    QuadTree.insertList 5 (QuadTree.new bdQ) twoBodiesQ =
      some ⟨twoBodyTreeQ, bdQ⟩ ∧
    (⟨twoBodyTreeQ, bdQ⟩ : QuadTree ℚ).root.comOK := by
  have hpw : twoBodiesQ.Pairwise (fun a b => a.position ≠ b.position) := by
    norm_num [twoBodiesQ, mkBody, List.pairwise_cons, Prod.ext_iff]
  have hin : ∀ b ∈ twoBodiesQ, bdQ.contains b.position.1 b.position.2 := by
    intro b hb
    simp only [twoBodiesQ, List.mem_cons, List.mem_singleton,
      List.not_mem_nil, or_false] at hb
    rcases hb with rfl | rfl <;>
      norm_num [bdQ, mkBody, Boundary.contains]
  have hpos : ∀ b ∈ twoBodiesQ, 0 < b.mass := by
    intro b hb
    simp only [twoBodiesQ, List.mem_cons, List.mem_singleton,
      List.not_mem_nil, or_false] at hb
    rcases hb with rfl | rfl <;> norm_num [mkBody]
  have hrun : QuadTree.insertList 5 (QuadTree.new bdQ) twoBodiesQ =
      some ⟨twoBodyTreeQ, bdQ⟩ := by
    norm_num [twoBodiesQ, twoBodyTreeQ, QuadTree.insertList, QuadTree.insert,
      QuadTree.new, QuadTreeNode.insert, firstContainingIdx,
      Boundary.contains, Boundary.subdivide, Boundary.center, quadrantAt,
      childAt, setChildAt, QuadTreeNode.calculate_center_of_mass,
      comContribution, bdQ, mkBody, Prod.ext_iff]
  exact ⟨hpw, hin, hpos, hrun,
    C3_center_of_mass 5 bdQ twoBodiesQ ⟨twoBodyTreeQ, bdQ⟩ hpw hin hpos hrun⟩

end Gravitas
